import Mathlib

/-!
# Frame pacing and run lifecycle (`internal/loop/run.go`)

A shallow embedding of the frame scheduler of `internal/loop/run.go`
(namespace `Loop`), followed by one of the looping stream of
`exp/audio/loop.go` (namespace `Audio`).

Conventions of the embedding:

* Go `int64` and `int` values are integers (`Int`).  The arithmetic of the
  scheduler (nanosecond timestamps, frame counters) is taken within range, so
  no wrap-around is modelled there; the one addition of the looping stream,
  whose operand is an argument of the caller, wraps around as in `int64`
  (`wrapInt64`).  Go's `/` truncates toward zero and is `Int.tdiv`; Go's `%`
  is the remainder of that division, `Int.tmod`.
* A `float64` value is the rational it denotes.  The conversion of an integer,
  the product and the quotient are each rounded to the nearest `float64`, ties
  to even, as IEEE 754 prescribes (`round64`).  Infinities, NaN and the
  limits of the exponent are not modelled: for `int64` operands every value
  that `render` computes has a magnitude between `2^-34` and `2^93`.
* The reader/writer mutex `m` guards the fields against other threads; the
  embedding is sequential and leaves it out.
* The package `internal/clock` is an external collaborator: one reading of it
  (`clock.IsValid()`, `clock.Frame()`) is an argument of `updateCount`.
* A nil `*runContext` is `none`; a run-time panic is a value of `Panic`.
-/

namespace Loop

/-! ## Constants -/

/-- The Go constant `time.Second`, in nanoseconds. -/
def second : Int := 1000000000

/-- Modelled from the spec: the constant `clock.FPS` of the package
`internal/clock`, whose source is not part of the development; the target
rate is `F = 60` ticks per second. -/
def FPS : Int := 60

/-! ## Data model -/

/-- One observation of the clock source: `clock.IsValid()` and
`clock.Frame()`. -/
structure clockReading where
  valid : Bool
  frame : Int
deriving DecidableEq, Repr

/-- The struct `runContext` (lines 30-41), without the mutex.  The callback
`ping` is represented by an identifier; `none` is the nil function.  The
field `currentFPS` holds the rational that its `float64` value denotes. -/
structure runContext where
  running : Bool
  currentFPS : ℚ
  runningSlowly : Bool
  frames : Int
  framesForFPS : Int
  lastUpdated : Int
  lastFPSUpdated : Int
  lastClockFrame : Int
  ping : Option Nat
deriving DecidableEq, Repr

/-! ## `updateCount` (lines 129-175) -/

/-- Lines 138-153 of `updateCount`: the synchronized branch or the
unsynchronized one.  The result is the flag `sync`, the local `count` and the
context as mutated so far; `t` is `now - c.lastUpdated` as computed on
line 133. -/
def updateCountBranch (c : runContext) (clk : clockReading) (now t : Int) :
    Bool × Int × runContext :=
  if clk.valid = true ∧ c.lastClockFrame ≠ clk.frame then
    let f := clk.frame
    let count := if c.frames < f then f - c.frames else 0
    (true, count, { c with lastClockFrame := f })
  else
    if t > Int.tdiv (5 * second) FPS then
      -- The previous time is too old.
      (false, 0, { c with lastUpdated := now })
    else
      (false, Int.tdiv (t * FPS) second, c)

/-- Lines 155-161 of `updateCount`: "Stabilize FPS". -/
def stabilize (count t : Int) : Int :=
  let count := if count = 0 ∧ Int.tdiv (Int.tdiv second FPS) 2 < t then 1 else count
  let count := if count = 2 ∧ Int.tdiv (Int.tdiv second FPS * 3) 2 > t then 1 else count
  count

/-- Lines 163-165 of `updateCount`: the clamp to three updates. -/
def clamp (count : Int) : Int :=
  if count > 3 then 3 else count

/-- The method `(*runContext).updateCount`: the context after the call and
the returned count. -/
def updateCount (c : runContext) (clk : clockReading) (now : Int) : runContext × Int :=
  let t := now - c.lastUpdated
  if t < 0 then
    (c, 0)
  else
    let b := updateCountBranch c clk now t
    let sync := b.1
    let count := clamp (stabilize b.2.1 t)
    let c1 := b.2.2
    let c2 :=
      if sync = true then { c1 with lastUpdated := now }
      else { c1 with lastUpdated := c1.lastUpdated + Int.tdiv (count * second) FPS }
    ({ c2 with frames := c2.frames + count }, count)

/-- A sequence of calls of `updateCount` on one context, each with its own
clock reading and time; the final context and the counts returned, in call
order. -/
def updateCounts (c : runContext) : List (clockReading × Int) → runContext × List Int
  | [] => (c, [])
  | (clk, now) :: rest =>
    let r := updateCount c clk now
    let s := updateCounts r.1 rest
    (s.1, r.2 :: s.2)

/-! ## `float64` arithmetic -/

/-- The integer nearest to `x`, the even one of the two when `x` lies half
way between them. -/
def roundHalfEven (x : ℚ) : Int :=
  if x - (⌊x⌋ : ℚ) < 1 / 2 then ⌊x⌋
  else if 1 / 2 < x - (⌊x⌋ : ℚ) then ⌊x⌋ + 1
  else if ⌊x⌋ % 2 = 0 then ⌊x⌋
  else ⌊x⌋ + 1

/-- The `float64` nearest to `q`, ties to even: `q` is scaled by the power of
two that brings its magnitude into `[2^52, 2^53)`, rounded to an integer (the
53-bit significand) and scaled back. -/
def round64 (q : ℚ) : ℚ :=
  if q = 0 then 0
  else (roundHalfEven (q / 2 ^ (Int.log 2 |q| - 52)) : ℚ) * 2 ^ (Int.log 2 |q| - 52)

/-- The Go conversion `float64(x)` of an `int64`. -/
def float64OfInt (x : Int) : ℚ :=
  round64 (x : ℚ)

/-- The `float64` product `a * b`. -/
def float64Mul (a b : ℚ) : ℚ :=
  round64 (a * b)

/-- The `float64` quotient `a / b`, for `b` other than zero. -/
def float64Div (a b : ℚ) : ℚ :=
  round64 (a / b)

/-! ## The render step (lines 188-213) -/

/-- Go `error` values that reach the loop: the sentinel type
`*ui.RegularTermination`, and any other error, told apart by its message. -/
inductive Error where
  | regularTermination
  | errorString (msg : String)
deriving DecidableEq, Repr

/-- What a render step does to its collaborators, in program order. -/
inductive Event where
  | ping (id : Nat)
  | updateAndDraw (count : Int)
deriving DecidableEq, Repr

/-- The method `(*runContext).updateFPS`. -/
def updateFPS (c : runContext) (fps : ℚ) : runContext :=
  { c with currentFPS := fps }

/-- The outcome of `render`: the context afterwards, the calls made to the
ping callback and to `GraphicsContext.UpdateAndDraw`, and the returned
error (`none` is nil). -/
structure RenderResult where
  ctx : runContext
  trace : List Event
  err : Option Error
deriving DecidableEq, Repr

/-- The method `(*runContext).render`.  `n` is the value of `now()`, `clk`
the clock reading that `updateCount` sees, and `updateAndDraw` the result of
`g.UpdateAndDraw` as a function of its argument. -/
def render (c : runContext) (clk : clockReading) (n : Int)
    (updateAndDraw : Int → Option Error) : RenderResult :=
  let pings : List Event :=
    match c.ping with
    | some id => [Event.ping id]
    | none => []
  let u := updateCount c clk n
  let c1 := u.1
  let count := u.2
  match updateAndDraw count with
  | some err => { ctx := c1, trace := pings ++ [Event.updateAndDraw count], err := some err }
  | none =>
    let c2 := { c1 with framesForFPS := c1.framesForFPS + 1 }
    -- Calc the current FPS.
    if second > n - c2.lastFPSUpdated then
      { ctx := c2, trace := pings ++ [Event.updateAndDraw count], err := none }
    else
      let currentFPS : ℚ :=
        float64Div (float64Mul (float64OfInt c2.framesForFPS) (float64OfInt second))
          (float64OfInt (n - c2.lastFPSUpdated))
      let c3 := updateFPS c2 currentFPS
      let c4 := { c3 with lastFPSUpdated := n }
      let c5 := { c4 with framesForFPS := 0 }
      { ctx := c5, trace := pings ++ [Event.updateAndDraw count], err := none }

/-- One render step as the platform loop drives it: the clock reading, the
time and the behaviour of the per-frame callback at that step. -/
structure RenderStep where
  clk : clockReading
  n : Int
  updateAndDraw : Int → Option Error

/-- A sequence of render steps on one context, as the platform loop issues
them: the loop stops at the first step that returns an error.  The result is
the context after the last step executed. -/
def renders (c : runContext) : List RenderStep → runContext
  | [] => c
  | s :: rest =>
    let r := render c s.clk s.n s.updateAndDraw
    match r.err with
    | some _ => r.ctx
    | none => renders r.ctx rest

/-! ## The run lifecycle (lines 26-28, 43-74, 105-127) -/

/-- Run-time panics of the Go program. -/
inductive Panic where
  | nilPointerDereference
  | closeOfClosedChannel
deriving DecidableEq, Repr

/-- The package-level variables (lines 43-46): the pointer
`currentRunContext` with the object it points to (`none` is nil), and whether
the channel `contextInitCh` has been closed. -/
structure Process where
  currentRunContext : Option runContext
  contextInitChClosed : Bool
deriving DecidableEq, Repr

/-- The state of a freshly loaded package: no scheduler, gate unset. -/
def Process.initial : Process :=
  { currentRunContext := none, contextInitChClosed := false }

/-- The method `(*runContext).startRunning`. -/
def startRunning (c : runContext) : runContext :=
  { c with running := true }

/-- The method `(*runContext).isRunning`. -/
def isRunning (c : runContext) : Bool :=
  c.running

/-- The method `(*runContext).endRunning`. -/
def endRunning (c : runContext) : runContext :=
  { c with running := false }

/-- The method `(*runContext).getCurrentFPS` on a non-nil receiver. -/
def getCurrentFPS (c : runContext) : ℚ :=
  if c.running = false then
    0
  else
    c.currentFPS

/-- The function `CurrentFPS`: it calls `getCurrentFPS` on the package
variable; on a nil receiver the field accesses `c.m` and `c.running`
dereference nil and panic. -/
def CurrentFPS (p : Process) : Except Panic ℚ :=
  match p.currentRunContext with
  | none => Except.error Panic.nilPointerDereference
  | some c => Except.ok (getCurrentFPS c)

/-- The zero value `&runContext{}`. -/
def runContext.zero : runContext :=
  { running := false, currentFPS := 0, runningSlowly := false, frames := 0,
    framesForFPS := 0, lastUpdated := 0, lastFPSUpdated := 0, lastClockFrame := 0,
    ping := none }

/-- The error of line 107. -/
def alreadyRunning : Error :=
  Error.errorString "loop: The game is already running"

/-- How a call of `Run` ends: with a panic, or by returning an error (`none`
is nil). -/
inductive Outcome where
  | panicked (p : Panic)
  | returned (err : Option Error)
deriving DecidableEq, Repr

/-- What a call of `Run` leaves behind: the package variables, whether
`ui.Run` was entered, and how the call ended. -/
structure RunResult where
  proc : Process
  enteredLoop : Bool
  outcome : Outcome
deriving DecidableEq, Repr

/-- The function `Run`.  `n` is the value of `now()`; `uiRun` is the platform
loop `ui.Run`, which drives the scheduler through `lg.Update` and returns an
error or nil.  The deferred `endRunning` runs on every exit past line 111. -/
def Run (p : Process) (n : Int) (uiRun : runContext → runContext × Option Error) :
    RunResult :=
  match p.currentRunContext with
  | some _ => { proc := p, enteredLoop := false, outcome := Outcome.returned (some alreadyRunning) }
  | none =>
    let c0 := startRunning runContext.zero
    let c1 := { c0 with lastUpdated := n }
    let c2 := { c1 with lastFPSUpdated := n }
    if p.contextInitChClosed = true then
      -- close of a closed channel
      { proc := { currentRunContext := some (endRunning c2), contextInitChClosed := true },
        enteredLoop := false,
        outcome := Outcome.panicked Panic.closeOfClosedChannel }
    else
      let r := uiRun c2
      let ret : Option Error :=
        match r.2 with
        | some Error.regularTermination => none
        | some err => some err
        | none => none
      { proc := { currentRunContext := some (endRunning r.1), contextInitChClosed := true },
        enteredLoop := true,
        outcome := Outcome.returned ret }

/-- The scheduler as `Run` sets it up on lines 109-115 at time `n`: the zero
value, marked running, with both timestamps equal to `n`. -/
def started (n : Int) : runContext :=
  { startRunning runContext.zero with lastUpdated := n, lastFPSUpdated := n }

/-- The calls of a steady-state run: the `k`-th call (`k = 1..N`) happens at
`t0 + k * interval`, where `interval` is `time.Second / clock.FPS` in integer
arithmetic, and sees the clock reading `clks (k - 1)`. -/
def steadyInputs (clks : Nat → clockReading) (t0 : Int) (N : Nat) :
    List (clockReading × Int) :=
  (List.range N).map (fun k => (clks k, t0 + ((k : Int) + 1) * Int.tdiv second FPS))

/-- Whether an event is a call of `GraphicsContext.UpdateAndDraw`. -/
def Event.isUpdateAndDraw : Event → Bool
  | Event.updateAndDraw _ => true
  | Event.ping _ => false

/-- The method `(*loopGraphicsContext).Update` (lines 97-99): the render step
of the scheduler it wraps, on the per-frame callback it wraps. -/
def Update (c : runContext) (clk : clockReading) (n : Int)
    (updateAndDraw : Int → Option Error) : RenderResult :=
  render c clk n updateAndDraw

/-- Lines 156-158 of `updateCount`: the first stabilization rule alone. -/
def stabilizeFirst (count t : Int) : Int :=
  if count = 0 ∧ Int.tdiv (Int.tdiv second FPS) 2 < t then 1 else count

/-- The condition of line 159 of `updateCount`, on the count that the first
rule leaves: whether the second stabilization rule fires. -/
def secondRuleFires (count t : Int) : Bool :=
  decide (count = 2 ∧ Int.tdiv (Int.tdiv second FPS * 3) 2 > t)

/-- One call of `Run`: the value of `now()` and the behaviour of the platform
loop in that call. -/
structure RunCall where
  n : Int
  uiRun : runContext → runContext × Option Error

/-- A sequence of calls of `Run`, each made after the previous one has ended;
the package state at the end and the result of every call, in call order. -/
def runs (p : Process) : List RunCall → Process × List RunResult
  | [] => (p, [])
  | k :: rest =>
    let r := Run p k.n k.uiRun
    let s := runs r.proc rest
    (s.1, r :: s.2)

end Loop

/-! # The looping stream (`exp/audio/loop.go`)

The interface `ReadSeekCloser` is an external collaborator: a stream is a
state of type `S` with the three methods as functions on it.  The bytes that
`Read` stores into its buffer are not modelled, only the count and the error
it returns.  Every result carries the calls made on the underlying stream, in
program order. -/

namespace Audio

/-- Go `error` values of a stream: `io.EOF`, and any other error. -/
inductive IOError where
  | EOF
  | other (code : Nat)
deriving DecidableEq, Repr

/-- A call on the underlying stream: `Read(b)` with `len(b)`, or
`Seek(offset, whence)`. -/
inductive Call where
  | read (len : Nat)
  | seek (offset : Int) (whence : Int)
deriving DecidableEq, Repr

/-- The interface `ReadSeekCloser` over a stream state `S`: each method gives
the state afterwards, the returned number and the returned error (`none` is
nil). -/
structure ReadSeekCloser (S : Type) where
  Read : S → Nat → S × Int × Option IOError
  Seek : S → Int → Int → S × Int × Option IOError
  Close : S → S × Option IOError

/-- The struct `Loop` (lines 21-24). -/
structure Loop (S : Type) where
  stream : ReadSeekCloser S
  size : Int

/-- The function `NewLoop`. -/
def NewLoop {S : Type} (stream : ReadSeekCloser S) (size : Int) : Loop S :=
  { stream := stream, size := size }

/-- Run-time panics of the looping stream: the explicit one of line 56, and
the integer division by zero of `next %= l.size` when `size` is 0. -/
inductive Panic where
  | whenceMustBe0Or1
  | integerDivideByZero
deriving DecidableEq, Repr

/-- How a method of `Loop` ends: with a panic, or by returning a number and
an error; `state` is the underlying stream afterwards and `calls` what was
called on it. -/
inductive Result (S : Type) where
  | panicked (p : Panic)
  | returned (state : S) (calls : List Call) (n : Int) (err : Option IOError)
deriving DecidableEq, Repr

/-- The calls that a method of `Loop` made on the underlying stream before
it returned. -/
def Result.calls {S : Type} : Result S → List Call
  | Result.panicked _ => []
  | Result.returned _ calls _ _ => calls

/-- The value that `int64` arithmetic gives for the integer `x`: `x` reduced
modulo `2^64` into the range from `-2^63` to `2^63 - 1`. -/
def wrapInt64 (x : Int) : Int :=
  (x + 9223372036854775808) % 18446744073709551616 - 9223372036854775808

/-- The `switch whence` of `Loop.Seek` (lines 46-57): either the method ends
there, or it goes on with the stream state, the calls so far and `next`. -/
def Loop.seekSwitch {S : Type} (l : Loop S) (s : S) (offset : Int) (whence : Int) :
    Result S ⊕ (S × List Call × Int) :=
  if whence = 0 then
    Sum.inr (s, [], offset)
  else if whence = 1 then
    let r := l.stream.Seek s 0 1
    match r.2.2 with
    | some err => Sum.inl (Result.returned r.1 [Call.seek 0 1] 0 (some err))
    | none => Sum.inr (r.1, [Call.seek 0 1], wrapInt64 (r.2.1 + offset))
  else if whence = 2 then
    Sum.inl (Result.panicked Panic.whenceMustBe0Or1)
  else
    Sum.inr (s, [], 0)

/-- The method `(*Loop).Seek`.  Go's `%` is the truncated remainder
`Int.tmod`. -/
def Loop.Seek {S : Type} (l : Loop S) (s : S) (offset : Int) (whence : Int) : Result S :=
  match Loop.seekSwitch l s offset whence with
  | Sum.inl res => res
  | Sum.inr (s1, calls, next) =>
    if l.size = 0 then
      Result.panicked Panic.integerDivideByZero
    else
      let next1 := Int.tmod next l.size
      let r := l.stream.Seek s1 next1 0
      match r.2.2 with
      | some err => Result.returned r.1 (calls ++ [Call.seek next1 0]) 0 (some err)
      | none => Result.returned r.1 (calls ++ [Call.seek next1 0]) r.2.1 none

/-- The method `(*Loop).Read`; `len` is `len(b)`. -/
def Loop.Read {S : Type} (l : Loop S) (s : S) (len : Nat) : Result S :=
  let r := l.stream.Read s len
  if r.2.2 = some IOError.EOF then
    match Loop.Seek l r.1 0 0 with
    | Result.panicked p => Result.panicked p
    | Result.returned s2 calls _ (some err) =>
      Result.returned s2 (Call.read len :: calls) 0 (some err)
    | Result.returned s2 calls _ none =>
      Result.returned s2 (Call.read len :: calls) r.2.1 none
  else
    Result.returned r.1 [Call.read len] r.2.1 r.2.2

/-- The method `(*Loop).Close`. -/
def Loop.Close {S : Type} (l : Loop S) (s : S) : S × Option IOError :=
  l.stream.Close s

/-- A stream for examples: a buffer of `len` bytes and a read position. -/
structure bufferState where
  len : Int
  pos : Int
deriving DecidableEq, Repr

/-- A stream for examples, over `bufferState`: `Read` returns what is left,
together with `io.EOF` when it reaches the end; `Seek` follows `io.Seeker`
and fails, leaving the position alone, on a negative target. -/
def bufferStream : ReadSeekCloser bufferState :=
  { Read := fun s n =>
      if s.pos + (n : Int) < s.len then ({ s with pos := s.pos + (n : Int) }, (n : Int), none)
      else ({ s with pos := s.len }, s.len - s.pos, some IOError.EOF)
    Seek := fun s offset whence =>
      let target :=
        if whence = 0 then offset
        else if whence = 1 then s.pos + offset
        else s.len + offset
      if target < 0 then (s, 0, some (IOError.other 1))
      else ({ s with pos := target }, target, none)
    Close := fun s => (s, none) }

end Audio

/-! ## Arithmetic of the thresholds -/

namespace Loop

theorem staleThreshold_eq : Int.tdiv (5 * second) FPS = 83333333 := by decide

theorem halfInterval_eq : Int.tdiv (Int.tdiv second FPS) 2 = 8333333 := by decide

theorem threeHalves_eq : Int.tdiv (Int.tdiv second FPS * 3) 2 = 24999999 := by decide

theorem ticks_eq (t : Int) (ht : 0 ≤ t) :
    Int.tdiv (t * FPS) second = t * 60 / 1000000000 := by
  have h : (0 : Int) ≤ t * FPS := Int.mul_nonneg ht (by decide)
  rw [Int.tdiv_eq_ediv h (by decide)]
  rfl

theorem advance_eq (count : Int) (h : 0 ≤ count) :
    Int.tdiv (count * second) FPS = count * 1000000000 / 60 := by
  have h1 : (0 : Int) ≤ count * second := Int.mul_nonneg h (by decide)
  rw [Int.tdiv_eq_ediv h1 (by decide)]
  rfl

/-- The two stabilization rules with their thresholds evaluated. -/
theorem stabilize_eq (count t : Int) :
    stabilize count t =
      if count = 0 ∧ 8333333 < t then 1
      else if count = 2 ∧ t < 24999999 then 1
      else count := by
  unfold stabilize
  rw [halfInterval_eq, threeHalves_eq]
  simp only [gt_iff_lt]
  split_ifs <;> omega

theorem clamp_eq_min (count : Int) : clamp count = min count 3 := by
  unfold clamp
  split_ifs <;> omega

theorem clamp_stabilize_range (count t : Int) (h : 0 ≤ count) :
    0 ≤ clamp (stabilize count t) ∧ clamp (stabilize count t) ≤ 3 := by
  rw [clamp_eq_min, stabilize_eq]
  split_ifs <;> omega

/-! ## The three branches of `updateCount` -/

theorem unsync_iff (c : runContext) (clk : clockReading) :
    ¬ (clk.valid = true ∧ c.lastClockFrame ≠ clk.frame) ↔
      (clk.valid = false ∨ c.lastClockFrame = clk.frame) := by
  cases clk.valid <;> simp

theorem branch_sync (c : runContext) (clk : clockReading) (now t : Int)
    (hv : clk.valid = true) (hf : c.lastClockFrame ≠ clk.frame) :
    updateCountBranch c clk now t =
      (true, if c.frames < clk.frame then clk.frame - c.frames else 0,
        { c with lastClockFrame := clk.frame }) := by
  have h : clk.valid = true ∧ c.lastClockFrame ≠ clk.frame := ⟨hv, hf⟩
  unfold updateCountBranch
  rw [if_pos h]

theorem branch_stale (c : runContext) (clk : clockReading) (now t : Int)
    (hu : clk.valid = false ∨ c.lastClockFrame = clk.frame) (hgap : 83333333 < t) :
    updateCountBranch c clk now t = (false, 0, { c with lastUpdated := now }) := by
  have h : ¬ (clk.valid = true ∧ c.lastClockFrame ≠ clk.frame) := (unsync_iff c clk).2 hu
  have hg : t > Int.tdiv (5 * second) FPS := by rw [staleThreshold_eq]; omega
  unfold updateCountBranch
  rw [if_neg h, if_pos hg]

theorem branch_fresh (c : runContext) (clk : clockReading) (now t : Int)
    (hu : clk.valid = false ∨ c.lastClockFrame = clk.frame) (h0 : 0 ≤ t)
    (hgap : t ≤ 83333333) :
    updateCountBranch c clk now t = (false, t * 60 / 1000000000, c) := by
  have h : ¬ (clk.valid = true ∧ c.lastClockFrame ≠ clk.frame) := (unsync_iff c clk).2 hu
  have hg : ¬ (t > Int.tdiv (5 * second) FPS) := by rw [staleThreshold_eq]; omega
  unfold updateCountBranch
  rw [if_neg h, if_neg hg, ticks_eq t h0]

theorem branch_count_nonneg (c : runContext) (clk : clockReading) (now t : Int)
    (ht : 0 ≤ t) : 0 ≤ (updateCountBranch c clk now t).2.1 := by
  by_cases h : clk.valid = true ∧ c.lastClockFrame ≠ clk.frame
  · rw [branch_sync c clk now t h.1 h.2]
    simp only
    split_ifs <;> omega
  · have hu := (unsync_iff c clk).1 h
    by_cases hg : 83333333 < t
    · rw [branch_stale c clk now t hu hg]
    · rw [branch_fresh c clk now t hu ht (by omega)]
      simp only
      omega

theorem updateCount_backward (c : runContext) (clk : clockReading) (now : Int)
    (h : now < c.lastUpdated) : updateCount c clk now = (c, 0) := by
  have hneg : now - c.lastUpdated < 0 := by omega
  simp only [updateCount, if_pos hneg]

theorem updateCount_sync (c : runContext) (clk : clockReading) (now : Int)
    (ht : c.lastUpdated ≤ now) (hv : clk.valid = true) (hf : c.lastClockFrame ≠ clk.frame) :
    updateCount c clk now =
      ({ c with
          lastClockFrame := clk.frame
          lastUpdated := now
          frames := c.frames +
            clamp (stabilize (if c.frames < clk.frame then clk.frame - c.frames else 0)
              (now - c.lastUpdated)) },
        clamp (stabilize (if c.frames < clk.frame then clk.frame - c.frames else 0)
          (now - c.lastUpdated))) := by
  have hneg : ¬ (now - c.lastUpdated < 0) := by omega
  simp only [updateCount, if_neg hneg, branch_sync c clk now _ hv hf, if_true]

theorem updateCount_stale (c : runContext) (clk : clockReading) (now : Int)
    (hu : clk.valid = false ∨ c.lastClockFrame = clk.frame)
    (hgap : 83333333 < now - c.lastUpdated) :
    updateCount c clk now =
      ({ c with lastUpdated := now + 16666666, frames := c.frames + 1 }, 1) := by
  have hneg : ¬ (now - c.lastUpdated < 0) := by omega
  have hs : clamp (stabilize 0 (now - c.lastUpdated)) = 1 := by
    have h : (0 : Int) = 0 ∧ 8333333 < now - c.lastUpdated := ⟨rfl, by omega⟩
    rw [clamp_eq_min, stabilize_eq, if_pos h]
    decide
  have ha : Int.tdiv (1 * second) FPS = 16666666 := by decide
  simp only [updateCount, if_neg hneg, branch_stale c clk now _ hu hgap, hs, ha]
  simp

theorem updateCount_fresh (c : runContext) (clk : clockReading) (now : Int)
    (hu : clk.valid = false ∨ c.lastClockFrame = clk.frame)
    (ht : c.lastUpdated ≤ now) (hgap : now - c.lastUpdated ≤ 83333333) :
    updateCount c clk now =
      ({ c with
          lastUpdated := c.lastUpdated +
            clamp (stabilize ((now - c.lastUpdated) * 60 / 1000000000) (now - c.lastUpdated))
              * 1000000000 / 60
          frames := c.frames +
            clamp (stabilize ((now - c.lastUpdated) * 60 / 1000000000) (now - c.lastUpdated)) },
        clamp (stabilize ((now - c.lastUpdated) * 60 / 1000000000) (now - c.lastUpdated))) := by
  have hneg : ¬ (now - c.lastUpdated < 0) := by omega
  have h0 : (0 : Int) ≤ (now - c.lastUpdated) * 60 / 1000000000 := by omega
  have hr := clamp_stabilize_range ((now - c.lastUpdated) * 60 / 1000000000)
    (now - c.lastUpdated) h0
  simp only [updateCount, if_neg hneg, branch_fresh c clk now _ hu (by omega) hgap,
    advance_eq _ hr.1]
  simp

end Loop

/-! ## Helper lemmas on single calls and on sequences -/

namespace Loop

/-- The count of the unsynchronized, non-stale branch as a step function of
the elapsed time. -/
theorem fresh_count (t : Int) (h0 : 0 ≤ t) (h1 : t ≤ 83333333) :
    clamp (stabilize (t * 60 / 1000000000) t) =
      if t ≤ 8333333 then 0
      else if t < 33333334 then 1
      else if t < 50000000 then 2
      else 3 := by
  rw [clamp_eq_min, stabilize_eq]
  split_ifs <;> omega

theorem updateCount_count_range (c : runContext) (clk : clockReading) (now : Int) :
    0 ≤ (updateCount c clk now).2 ∧ (updateCount c clk now).2 ≤ 3 := by
  by_cases h : now - c.lastUpdated < 0
  · simp only [updateCount, if_pos h]
    omega
  · simp only [updateCount, if_neg h]
    exact clamp_stabilize_range _ _ (branch_count_nonneg c clk now _ (by omega))

theorem updateCount_frames (c : runContext) (clk : clockReading) (now : Int) :
    (updateCount c clk now).1.frames = c.frames + (updateCount c clk now).2 := by
  by_cases hb : now < c.lastUpdated
  · rw [updateCount_backward c clk now hb]
    simp
  · by_cases h : clk.valid = true ∧ c.lastClockFrame ≠ clk.frame
    · rw [updateCount_sync c clk now (by omega) h.1 h.2]
    · have hu := (unsync_iff c clk).1 h
      by_cases hg : 83333333 < now - c.lastUpdated
      · rw [updateCount_stale c clk now hu hg]
      · rw [updateCount_fresh c clk now hu (by omega) (by omega)]

theorem updateCount_lastUpdated_le (c : runContext) (clk : clockReading) (now : Int) :
    c.lastUpdated ≤ (updateCount c clk now).1.lastUpdated := by
  by_cases hb : now < c.lastUpdated
  · rw [updateCount_backward c clk now hb]
  · by_cases h : clk.valid = true ∧ c.lastClockFrame ≠ clk.frame
    · rw [updateCount_sync c clk now (by omega) h.1 h.2]
      simp only
      omega
    · have hu := (unsync_iff c clk).1 h
      by_cases hg : 83333333 < now - c.lastUpdated
      · rw [updateCount_stale c clk now hu hg]
        simp only
        omega
      · rw [updateCount_fresh c clk now hu (by omega) (by omega)]
        have hr := clamp_stabilize_range ((now - c.lastUpdated) * 60 / 1000000000)
          (now - c.lastUpdated) (by omega)
        simp only
        omega

theorem updateCounts_append (c : runContext) (l1 l2 : List (clockReading × Int)) :
    updateCounts c (l1 ++ l2) =
      ((updateCounts (updateCounts c l1).1 l2).1,
        (updateCounts c l1).2 ++ (updateCounts (updateCounts c l1).1 l2).2) := by
  induction l1 generalizing c with
  | nil => simp [updateCounts]
  | cons x rest ih =>
    obtain ⟨clk, now⟩ := x
    rw [List.cons_append]
    simp only [updateCounts, ih]
    rfl

theorem updateCounts_frames (c : runContext) (inputs : List (clockReading × Int)) :
    (updateCounts c inputs).1.frames = c.frames + (updateCounts c inputs).2.sum := by
  induction inputs generalizing c with
  | nil => simp [updateCounts]
  | cons x rest ih =>
    obtain ⟨clk, now⟩ := x
    simp only [updateCounts, List.sum_cons, ih, updateCount_frames]
    omega

theorem updateCounts_sum_nonneg (c : runContext) (inputs : List (clockReading × Int)) :
    0 ≤ (updateCounts c inputs).2.sum := by
  induction inputs generalizing c with
  | nil => simp [updateCounts]
  | cons x rest ih =>
    obtain ⟨clk, now⟩ := x
    simp only [updateCounts, List.sum_cons]
    have h1 := (updateCount_count_range c clk now).1
    have h2 := ih (updateCount c clk now).1
    omega

/-- One call exactly one interval after `lastUpdated`, clock invalid. -/
theorem updateCount_one_interval (c : runContext) (clk : clockReading) (now : Int)
    (hv : clk.valid = false) (hn : now = c.lastUpdated + 16666666) :
    updateCount c clk now = ({ c with lastUpdated := now, frames := c.frames + 1 }, 1) := by
  have ht : now - c.lastUpdated = 16666666 := by omega
  rw [updateCount_fresh c clk now (Or.inl hv) (by omega) (by omega), ht]
  have hk : clamp (stabilize (16666666 * 60 / 1000000000) 16666666) = 1 := by
    rw [fresh_count 16666666 (by decide) (by decide)]
    decide
  rw [hk]
  have ha : c.lastUpdated + 1 * 1000000000 / 60 = now := by omega
  rw [ha]

theorem steadyInputs_succ (clks : Nat → clockReading) (t0 : Int) (N : Nat) :
    steadyInputs clks t0 (N + 1) =
      steadyInputs clks t0 N ++ [(clks N, t0 + ((N : Int) + 1) * 16666666)] := by
  have hi : Int.tdiv second FPS = 16666666 := by decide
  simp [steadyInputs, List.range_succ, hi]

theorem steady_run (c : runContext) (clks : Nat → clockReading)
    (hv : ∀ k, (clks k).valid = false) (N : Nat) :
    updateCounts c (steadyInputs clks (c.lastUpdated) N) =
      ({ c with lastUpdated := c.lastUpdated + (N : Int) * 16666666,
                frames := c.frames + (N : Int) },
        List.replicate N 1) := by
  induction N with
  | zero => simp [steadyInputs, updateCounts]
  | succ N ih =>
    rw [steadyInputs_succ, updateCounts_append, ih]
    simp only [updateCounts]
    rw [updateCount_one_interval _ (clks N) _ (hv N) (by simp only; omega)]
    have hl : List.replicate N (1 : Int) ++ [1] = List.replicate (N + 1) 1 := by
      rw [List.replicate_succ']
    rw [hl]
    have h1 : c.lastUpdated + ((N : Int) + 1) * 16666666
        = c.lastUpdated + ((N + 1 : Nat) : Int) * 16666666 := by push_cast; ring
    have h2 : c.frames + (N : Int) + 1 = c.frames + ((N + 1 : Nat) : Int) := by
      push_cast; ring
    simp only [h1, h2]

end Loop

/-! ## The update count (claims C1 to C7) -/

namespace Loop

/-- C1 (what the code does in the stale case): when the clock source is not
synchronized and the gap `now - lastUpdated` exceeds the stale threshold
`5 * time.Second / clock.FPS`, `updateCount` returns 1, not 0: line 156 tests
the old gap again and raises the count that line 148 had set to 0.  In
consequence `lastUpdated` ends one interval past `now` and `frames` grows by
one. -/
theorem updateCount_stale_gap_returns_one (c : runContext) (clk : clockReading) (now : Int)
    (hu : clk.valid = false ∨ clk.frame = c.lastClockFrame)
    (hgap : Int.tdiv (5 * second) FPS < now - c.lastUpdated) :
    (updateCount c clk now).2 = 1 ∧
      (updateCount c clk now).1.lastUpdated = now + 16666666 ∧
      (updateCount c clk now).1.frames = c.frames + 1 := by
  rw [staleThreshold_eq] at hgap
  have hu2 : clk.valid = false ∨ c.lastClockFrame = clk.frame := hu.imp id Eq.symm
  rw [updateCount_stale c clk now hu2 hgap]
  exact ⟨rfl, rfl, rfl⟩

/-- Witness for C1: a scheduler started at time 0, clock invalid, called
100 ms later. -/
theorem updateCount_stale_gap_returns_one_witness :
    Int.tdiv (5 * second) FPS < 100000000 - (started 0).lastUpdated ∧
      (updateCount (started 0) ⟨false, 0⟩ 100000000).2 = 1 ∧
      (updateCount (started 0) ⟨false, 0⟩ 100000000).1.lastUpdated = 100000000 + 16666666 ∧
      (updateCount (started 0) ⟨false, 0⟩ 100000000).1.frames = (started 0).frames + 1 :=
  ⟨by decide,
    updateCount_stale_gap_returns_one (started 0) ⟨false, 0⟩ 100000000 (Or.inl rfl)
      (by decide)⟩

/-- C2: `updateCount` returns the count of the branch and stabilization
steps clamped to 3 (and 0 on the early return for a backward clock); the
result always lies between 0 and 3, and it is 3 whenever the count before
the clamp exceeds 3, in the synchronized branch (`f - frames`) and in the
unsynchronized non-stale branch (`floor (elapsed * F / 1e9)`). -/
theorem updateCount_clamp (c : runContext) (clk : clockReading) (now : Int) :
    (now - c.lastUpdated < 0 → (updateCount c clk now).2 = 0) ∧
    (0 ≤ now - c.lastUpdated →
      (updateCount c clk now).2 =
        min (stabilize (updateCountBranch c clk now (now - c.lastUpdated)).2.1
          (now - c.lastUpdated)) 3) ∧
    (0 ≤ (updateCount c clk now).2 ∧ (updateCount c clk now).2 ≤ 3) ∧
    (0 ≤ now - c.lastUpdated → clk.valid = true → c.lastClockFrame ≠ clk.frame →
      3 < clk.frame - c.frames → (updateCount c clk now).2 = 3) ∧
    (0 ≤ now - c.lastUpdated → (clk.valid = false ∨ c.lastClockFrame = clk.frame) →
      now - c.lastUpdated ≤ Int.tdiv (5 * second) FPS →
      3 < Int.tdiv ((now - c.lastUpdated) * FPS) second → (updateCount c clk now).2 = 3) := by
  refine ⟨?_, ?_, updateCount_count_range c clk now, ?_, ?_⟩
  · intro h
    rw [updateCount_backward c clk now (by omega)]
  · intro h
    have hneg : ¬ (now - c.lastUpdated < 0) := by omega
    simp only [updateCount, if_neg hneg, clamp_eq_min]
  · intro h hv hf hk
    rw [updateCount_sync c clk now (by omega) hv hf, clamp_eq_min, stabilize_eq]
    simp only
    split_ifs <;> omega
  · intro h hu hg hk
    rw [staleThreshold_eq] at hg
    rw [ticks_eq _ h] at hk
    rw [updateCount_fresh c clk now hu (by omega) hg, clamp_eq_min, stabilize_eq]
    simp only
    split_ifs <;> omega

/-- Witness for C2: a gap of 70 ms with the clock invalid implies 4 ticks and
yields 3; a synchronized clock 7 frames ahead yields 3. -/
theorem updateCount_clamp_witness :
    Int.tdiv ((70000000 - (started 0).lastUpdated) * FPS) second = 4 ∧
      (updateCount (started 0) ⟨false, 0⟩ 70000000).2 = 3 ∧
      (updateCount (started 0) ⟨true, 7⟩ 16666666).2 = 3 :=
  ⟨by decide,
    (updateCount_clamp (started 0) ⟨false, 0⟩ 70000000).2.2.2.2 (by decide) (Or.inl rfl)
      (by decide) (by decide),
    (updateCount_clamp (started 0) ⟨true, 7⟩ 16666666).2.2.2.1 (by decide) rfl (by decide)
      (by decide)⟩

/-- C3: with the clock invalid, starting from `frames = 0` and
`lastUpdated = t0`, the calls at `t0 + k * 16666666` for `k = 1..N` each
return 1, and afterwards `frames = N` and
`lastUpdated = t0 + N * 16666666`. -/
theorem updateCount_steady_state (c : runContext) (clks : Nat → clockReading) (t0 : Int)
    (N : Nat) (hv : ∀ k, (clks k).valid = false) (hf : c.frames = 0)
    (hl : c.lastUpdated = t0) :
    Int.tdiv second FPS = 16666666 ∧
      (updateCounts c (steadyInputs clks t0 N)).2 = List.replicate N 1 ∧
      (updateCounts c (steadyInputs clks t0 N)).1.frames = (N : Int) ∧
      (updateCounts c (steadyInputs clks t0 N)).1.lastUpdated =
        t0 + (N : Int) * Int.tdiv second FPS := by
  have hi : Int.tdiv second FPS = 16666666 := by decide
  subst hl
  rw [steady_run c clks hv N, hi]
  simp [hf]

/-- Witness for C3: three calls from a scheduler started at time 0. -/
theorem updateCount_steady_state_witness :
    (updateCounts (started 0) (steadyInputs (fun _ => ⟨false, 0⟩) 0 3)).2 = [1, 1, 1] ∧
      (updateCounts (started 0) (steadyInputs (fun _ => ⟨false, 0⟩) 0 3)).1.frames = 3 ∧
      (updateCounts (started 0) (steadyInputs (fun _ => ⟨false, 0⟩) 0 3)).1.lastUpdated
        = 0 + 3 * Int.tdiv second FPS :=
  (updateCount_steady_state (started 0) (fun _ => ⟨false, 0⟩) 0 3 (fun _ => rfl) rfl rfl).2

/-- C4: in the unsynchronized branch, an elapsed time between 0 and
`interval / 2` (8333333 ns) yields 0 and leaves the context as it was; an
elapsed time above `interval / 2` and below twice the interval yields 1,
whether the interval is the integer `time.Second / clock.FPS` or the exact
quotient `1e9 / 60` (`elapsed * 60 < 2 * 1e9`). -/
theorem updateCount_half_interval (c : runContext) (clk : clockReading) (now : Int)
    (hu : clk.valid = false ∨ clk.frame = c.lastClockFrame) :
    Int.tdiv (Int.tdiv second FPS) 2 = 8333333 ∧
    (0 ≤ now - c.lastUpdated → now - c.lastUpdated ≤ Int.tdiv (Int.tdiv second FPS) 2 →
      (updateCount c clk now).2 = 0 ∧
        (updateCount c clk now).1.frames = c.frames ∧
        (updateCount c clk now).1.lastUpdated = c.lastUpdated ∧
        (updateCount c clk now).1 = c) ∧
    (Int.tdiv (Int.tdiv second FPS) 2 < now - c.lastUpdated →
      now - c.lastUpdated < 2 * Int.tdiv second FPS →
      (updateCount c clk now).2 = 1) ∧
    (Int.tdiv (Int.tdiv second FPS) 2 < now - c.lastUpdated →
      (now - c.lastUpdated) * FPS < 2 * second →
      (updateCount c clk now).2 = 1) := by
  have hu2 : clk.valid = false ∨ c.lastClockFrame = clk.frame := hu.imp id Eq.symm
  have hi : Int.tdiv second FPS = 16666666 := by decide
  rw [halfInterval_eq, hi]
  refine ⟨rfl, ?_, ?_, ?_⟩
  · intro h0 h1
    rw [updateCount_fresh c clk now hu2 (by omega) (by omega),
      fresh_count _ h0 (by omega), if_pos h1]
    simp
  · intro h0 h1
    rw [updateCount_fresh c clk now hu2 (by omega) (by omega),
      fresh_count _ (by omega) (by omega), if_neg (by omega), if_pos (by omega)]
  · intro h0 h1
    have h2 : (now - c.lastUpdated) * 60 < 2 * 1000000000 := h1
    rw [updateCount_fresh c clk now hu2 (by omega) (by omega),
      fresh_count _ (by omega) (by omega), if_neg (by omega), if_pos (by omega)]

/-- Witness for C4: gaps of 7 ms and of 9 ms. -/
theorem updateCount_half_interval_witness :
    (updateCount (started 0) ⟨false, 0⟩ 7000000).2 = 0 ∧
      (updateCount (started 0) ⟨false, 0⟩ 7000000).1 = started 0 ∧
      (updateCount (started 0) ⟨false, 0⟩ 9000000).2 = 1 :=
  ⟨((updateCount_half_interval (started 0) ⟨false, 0⟩ 7000000 (Or.inl rfl)).2.1
      (by decide) (by decide)).1,
    ((updateCount_half_interval (started 0) ⟨false, 0⟩ 7000000 (Or.inl rfl)).2.1
      (by decide) (by decide)).2.2.2,
    (updateCount_half_interval (started 0) ⟨false, 0⟩ 9000000 (Or.inl rfl)).2.2.1
      (by decide) (by decide)⟩

/-- C5: when `now < lastUpdated`, `updateCount` returns 0 and the context
after the call equals the context before it, field by field, whatever the
clock source reports. -/
theorem updateCount_backward_clock (c : runContext) (clk : clockReading) (now : Int)
    (h : now < c.lastUpdated) :
    (updateCount c clk now).2 = 0 ∧
      (updateCount c clk now).1 = c ∧
      (updateCount c clk now).1.frames = c.frames ∧
      (updateCount c clk now).1.lastUpdated = c.lastUpdated ∧
      (updateCount c clk now).1.lastClockFrame = c.lastClockFrame ∧
      (updateCount c clk now).1.framesForFPS = c.framesForFPS ∧
      (updateCount c clk now).1.lastFPSUpdated = c.lastFPSUpdated ∧
      (updateCount c clk now).1.currentFPS = c.currentFPS ∧
      (updateCount c clk now).1.running = c.running := by
  rw [updateCount_backward c clk now h]
  simp

/-- Witness for C5: a scheduler started at time 1000, called at time 999
with a valid clock at frame 5. -/
theorem updateCount_backward_clock_witness :
    (999 : Int) < (started 1000).lastUpdated ∧
      (updateCount (started 1000) ⟨true, 5⟩ 999).2 = 0 ∧
      (updateCount (started 1000) ⟨true, 5⟩ 999).1 = started 1000 :=
  ⟨by decide,
    (updateCount_backward_clock (started 1000) ⟨true, 5⟩ 999 (by decide)).1,
    (updateCount_backward_clock (started 1000) ⟨true, 5⟩ 999 (by decide)).2.1⟩

/-- C6: after every call `frames` equals its value before plus the returned
count; over any sequence of calls it grows by the sum of the returned counts
and therefore never decreases. -/
theorem updateCount_frames_advance (c : runContext) (clk : clockReading) (now : Int)
    (inputs : List (clockReading × Int)) :
    (updateCount c clk now).1.frames = c.frames + (updateCount c clk now).2 ∧
      c.frames ≤ (updateCount c clk now).1.frames ∧
      (updateCounts c inputs).1.frames = c.frames + (updateCounts c inputs).2.sum ∧
      c.frames ≤ (updateCounts c inputs).1.frames := by
  have h1 := updateCount_frames c clk now
  have h2 := (updateCount_count_range c clk now).1
  have h3 := updateCounts_frames c inputs
  have h4 := updateCounts_sum_nonneg c inputs
  refine ⟨h1, ?_, h3, ?_⟩ <;> omega

/-- C7: `lastUpdated` after a call of `updateCount` is never below its value
before the call. -/
theorem updateCount_lastUpdated_monotone (c : runContext) (clk : clockReading) (now : Int) :
    c.lastUpdated ≤ (updateCount c clk now).1.lastUpdated :=
  updateCount_lastUpdated_le c clk now

end Loop

/-! ## Helper lemmas on `float64` rounding -/

namespace Loop

/-- An integer rounds to itself. -/
theorem roundHalfEven_intCast (z : Int) : roundHalfEven (z : ℚ) = z := by
  simp [roundHalfEven]

/-- Rounding to an integer moves a number by at most one half. -/
theorem roundHalfEven_error (x : ℚ) : |((roundHalfEven x : Int) : ℚ) - x| ≤ 1 / 2 := by
  have h1 := Int.floor_le x
  have h2 := Int.lt_floor_add_one x
  unfold roundHalfEven
  split_ifs with ha hb hc
  · rw [abs_le]; constructor <;> linarith
  · rw [abs_le]; push_cast; constructor <;> linarith
  · rw [abs_le]; constructor <;> linarith
  · rw [abs_le]; push_cast; constructor <;> linarith

theorem log_eq_of_bounds (q : ℚ) (k : Int) (hq : 0 < q) (h1 : (2 : ℚ) ^ k ≤ q)
    (h2 : q < (2 : ℚ) ^ (k + 1)) : Int.log 2 q = k := by
  have a1 : k ≤ Int.log 2 q := by
    rw [← Int.zpow_le_iff_le_log (by norm_num) hq]
    exact_mod_cast h1
  have a2 : Int.log 2 q < k + 1 := by
    rw [← Int.lt_zpow_iff_log_lt (by norm_num) hq]
    exact_mod_cast h2
  omega

/-- The value of `round64` once the binade of `q` is known. -/
theorem round64_of_bounds (q : ℚ) (e : Int) (h1 : (2 : ℚ) ^ (e + 52) ≤ |q|)
    (h2 : |q| < (2 : ℚ) ^ (e + 52 + 1)) :
    round64 q = (roundHalfEven (q / 2 ^ e) : ℚ) * 2 ^ e := by
  have hpos : (0 : ℚ) < |q| := lt_of_lt_of_le (by positivity) h1
  have hq : q ≠ 0 := abs_pos.mp hpos
  have hl := log_eq_of_bounds |q| (e + 52) hpos h1 h2
  have he : Int.log 2 |q| - 52 = e := by omega
  simp only [round64, if_neg hq, he]

/-- The `float64` nearest to one third. -/
theorem round64_third : round64 (1 / 3) = 6004799503160661 / 18014398509481984 := by
  rw [round64_of_bounds (1 / 3) (-54) (by norm_num [abs_of_pos]) (by norm_num [abs_of_pos])]
  have hf : ⌊((1 : ℚ) / 3 / 2 ^ (-54 : Int))⌋ = 6004799503160661 := by
    rw [Int.floor_eq_iff]; constructor <;> norm_num
  have hr : roundHalfEven ((1 : ℚ) / 3 / 2 ^ (-54 : Int)) = 6004799503160661 := by
    unfold roundHalfEven
    rw [hf, if_pos (by norm_num)]
  rw [hr]
  norm_num

/-- A number with a significand below `2^53` is a `float64`: rounding leaves
it alone. -/
theorem round64_dyadic (m k : Int) (hm : |m| < 2 ^ 53) :
    round64 ((m : ℚ) * 2 ^ k) = (m : ℚ) * 2 ^ k := by
  by_cases h0 : m = 0
  · simp [round64, h0]
  · have hmq : (m : ℚ) ≠ 0 := by exact_mod_cast h0
    have h2k : (0 : ℚ) < 2 ^ k := by positivity
    have hq : (m : ℚ) * 2 ^ k ≠ 0 := mul_ne_zero hmq (ne_of_gt h2k)
    have habs : |(m : ℚ) * 2 ^ k| = |(m : ℚ)| * 2 ^ k := by
      rw [abs_mul, abs_of_pos h2k]
    have hpos : (0 : ℚ) < |(m : ℚ) * 2 ^ k| := abs_pos.mpr hq
    have hmlt : |(m : ℚ)| < 2 ^ (53 : Int) := by
      have : ((|m| : Int) : ℚ) < ((2 ^ 53 : Int) : ℚ) := by exact_mod_cast hm
      rw [Int.cast_abs] at this
      norm_num at this ⊢
      exact this
    have hlt : |(m : ℚ) * 2 ^ k| < ((2 : ℕ) : ℚ) ^ (53 + k) := by
      rw [habs, zpow_add₀ (by norm_num)]
      push_cast
      exact mul_lt_mul_of_pos_right hmlt h2k
    have hlog : Int.log 2 |(m : ℚ) * 2 ^ k| < 53 + k :=
      (Int.lt_zpow_iff_log_lt (by norm_num) hpos).1 hlt
    obtain ⟨n, hn⟩ : ∃ n : ℕ, k - (Int.log 2 |(m : ℚ) * 2 ^ k| - 52) = (n : Int) :=
      ⟨(k - (Int.log 2 |(m : ℚ) * 2 ^ k| - 52)).toNat, by omega⟩
    have hx : (m : ℚ) * 2 ^ k / 2 ^ (Int.log 2 |(m : ℚ) * 2 ^ k| - 52)
        = ((m * 2 ^ n : Int) : ℚ) := by
      rw [mul_div_assoc, ← zpow_sub₀ (by norm_num), hn]
      push_cast
      rw [zpow_natCast]
    simp only [round64, if_neg hq]
    rw [hx, roundHalfEven_intCast]
    push_cast
    rw [mul_assoc, ← zpow_natCast, ← hn, ← zpow_add₀ (by norm_num)]
    congr 2
    omega

/-- An integer of magnitude at most `2^53` is a `float64`. -/
theorem round64_intCast (a : Int) (h : |a| ≤ 2 ^ 53) : round64 (a : ℚ) = (a : ℚ) := by
  by_cases hlt : |a| < 2 ^ 53
  · have := round64_dyadic a 0 hlt
    simpa using this
  · have ha : |a| = 2 ^ 53 := by omega
    have hcase : a = 2 ^ 53 ∨ a = -(2 ^ 53) := by
      rcases abs_cases a with ⟨h1, _⟩ | ⟨h1, _⟩
      · left; omega
      · right; omega
    rcases hcase with h1 | h1
    · have := round64_dyadic 1 53 (by norm_num)
      rw [h1]
      norm_num at this ⊢
      exact this
    · have := round64_dyadic (-1) 53 (by norm_num)
      rw [h1]
      norm_num at this ⊢
      exact this

/-- The relative error of rounding is at most `2^-53`. -/
theorem round64_error (q : ℚ) : |round64 q - q| ≤ |q| / 2 ^ 53 := by
  by_cases hq : q = 0
  · simp [round64, hq]
  · have hpos : (0 : ℚ) < |q| := abs_pos.mpr hq
    have hl : ((2 : ℕ) : ℚ) ^ Int.log 2 |q| ≤ |q| := Int.zpow_log_le_self (by norm_num) hpos
    have h2e : (0 : ℚ) < 2 ^ (Int.log 2 |q| - 52) := by positivity
    have herr := roundHalfEven_error (q / 2 ^ (Int.log 2 |q| - 52))
    have hsplit : round64 q - q =
        (((roundHalfEven (q / 2 ^ (Int.log 2 |q| - 52)) : Int) : ℚ)
          - q / 2 ^ (Int.log 2 |q| - 52)) * 2 ^ (Int.log 2 |q| - 52) := by
      simp only [round64, if_neg hq]
      field_simp
    rw [hsplit, abs_mul, abs_of_pos h2e]
    have hL : (2 : ℚ) ^ Int.log 2 |q| = 2 ^ (Int.log 2 |q| - 52) * 2 ^ 52 := by
      rw [← zpow_natCast, ← zpow_add₀ (by norm_num)]
      congr 1
      omega
    have hl2 : (2 : ℚ) ^ (Int.log 2 |q| - 52) * 2 ^ 52 ≤ |q| := by
      rw [← hL]
      exact_mod_cast hl
    calc |((roundHalfEven (q / 2 ^ (Int.log 2 |q| - 52)) : Int) : ℚ)
            - q / 2 ^ (Int.log 2 |q| - 52)| * 2 ^ (Int.log 2 |q| - 52)
        ≤ 1 / 2 * 2 ^ (Int.log 2 |q| - 52) := mul_le_mul_of_nonneg_right herr (le_of_lt h2e)
      _ = (2 ^ (Int.log 2 |q| - 52) * 2 ^ 52) / 2 ^ 53 := by ring
      _ ≤ |q| / 2 ^ 53 := div_le_div_of_nonneg_right hl2 (by positivity)

/-- The sample of line 207 when the counter times `1e9` and the gap are at
most `2^53`: the conversions and the product are exact, so the stored value
is the `float64` nearest to the exact quotient. -/
theorem float64_sample (a d : Int) (ha : 0 ≤ a) (hp : a * second ≤ 2 ^ 53)
    (hd0 : 0 ≤ d) (hd : d ≤ 2 ^ 53) :
    float64Div (float64Mul (float64OfInt a) (float64OfInt second)) (float64OfInt d)
      = round64 ((a : ℚ) * 1000000000 / (d : ℚ)) := by
  have hs : second = 1000000000 := rfl
  rw [hs] at hp
  have h1 : float64OfInt a = (a : ℚ) :=
    round64_intCast a (by rw [abs_of_nonneg ha]; omega)
  have h2 : float64OfInt second = (1000000000 : ℚ) := by
    have := round64_intCast 1000000000 (by norm_num)
    simpa [float64OfInt, second] using this
  have h3 : float64OfInt d = (d : ℚ) :=
    round64_intCast d (by rw [abs_of_nonneg hd0]; exact hd)
  have h4 : float64Mul (a : ℚ) 1000000000 = (a : ℚ) * 1000000000 := by
    have := round64_intCast (a * 1000000000)
      (by rw [abs_of_nonneg (by omega)]; exact hp)
    simpa [float64Mul] using this
  rw [h1, h2, h3, h4, float64Div]

end Loop

/-! ## Helper lemmas on the render step -/

namespace Loop

/-- `updateCount` leaves the FPS bookkeeping, the running flag and the ping
callback alone. -/
theorem updateCount_fps_fields (c : runContext) (clk : clockReading) (now : Int) :
    (updateCount c clk now).1.framesForFPS = c.framesForFPS ∧
      (updateCount c clk now).1.lastFPSUpdated = c.lastFPSUpdated ∧
      (updateCount c clk now).1.currentFPS = c.currentFPS ∧
      (updateCount c clk now).1.running = c.running ∧
      (updateCount c clk now).1.ping = c.ping := by
  by_cases hb : now < c.lastUpdated
  · rw [updateCount_backward c clk now hb]
    simp
  · by_cases h : clk.valid = true ∧ c.lastClockFrame ≠ clk.frame
    · rw [updateCount_sync c clk now (by omega) h.1 h.2]
      simp
    · have hu := (unsync_iff c clk).1 h
      by_cases hg : 83333333 < now - c.lastUpdated
      · rw [updateCount_stale c clk now hu hg]
        simp
      · rw [updateCount_fresh c clk now hu (by omega) (by omega)]
        simp

/-- A successful render step less than a second after the last sample. -/
theorem render_within_window (c : runContext) (clk : clockReading) (n : Int)
    (g : Int → Option Error) (hok : g (updateCount c clk n).2 = none)
    (hw : n - c.lastFPSUpdated < second) :
    (render c clk n g).ctx =
      { (updateCount c clk n).1 with framesForFPS := c.framesForFPS + 1 } := by
  have hf := updateCount_fps_fields c clk n
  have hlt : second > n - c.lastFPSUpdated := hw
  simp only [render, hok, hf.1, hf.2.1, if_pos hlt]

/-- A successful render step a second or more after the last sample. -/
theorem render_sample (c : runContext) (clk : clockReading) (n : Int)
    (g : Int → Option Error) (hok : g (updateCount c clk n).2 = none)
    (hw : second ≤ n - c.lastFPSUpdated) :
    (render c clk n g).ctx =
      { (updateCount c clk n).1 with
          currentFPS :=
            float64Div (float64Mul (float64OfInt (c.framesForFPS + 1)) (float64OfInt second))
              (float64OfInt (n - c.lastFPSUpdated))
          lastFPSUpdated := n
          framesForFPS := 0 } := by
  have hf := updateCount_fps_fields c clk n
  have hge : ¬ (second > n - c.lastFPSUpdated) := by omega
  simp only [render, hok, hf.1, hf.2.1, updateFPS, if_neg hge]

/-- The error that `render` returns is the one of the per-frame callback. -/
theorem render_err (c : runContext) (clk : clockReading) (n : Int)
    (g : Int → Option Error) :
    (render c clk n g).err = g (updateCount c clk n).2 := by
  unfold render
  simp only
  split
  · rename_i e he
    rw [he]
  · rename_i he
    rw [he]
    split <;> rfl

theorem renders_cons_ok (c : runContext) (s : RenderStep) (rest : List RenderStep)
    (hok : ∀ k, s.updateAndDraw k = none) :
    renders c (s :: rest) = renders (render c s.clk s.n s.updateAndDraw).ctx rest := by
  have he : (render c s.clk s.n s.updateAndDraw).err = none := by
    rw [render_err, hok]
  simp only [renders, he]

theorem renders_append_ok (c : runContext) (l1 l2 : List RenderStep)
    (hok : ∀ s ∈ l1, ∀ k, s.updateAndDraw k = none) :
    renders c (l1 ++ l2) = renders (renders c l1) l2 := by
  induction l1 generalizing c with
  | nil => rfl
  | cons s rest ih =>
    have hs := hok s (List.mem_cons_self s rest)
    rw [List.cons_append, renders_cons_ok c s _ hs, renders_cons_ok c s _ hs]
    exact ih _ (fun s2 hs2 => hok s2 (List.mem_cons_of_mem s hs2))

/-- Successful render steps inside the sampling window only count. -/
theorem renders_within_window (c : runContext) (steps : List RenderStep)
    (h : ∀ s ∈ steps, s.n - c.lastFPSUpdated < second ∧ ∀ k, s.updateAndDraw k = none) :
    (renders c steps).framesForFPS = c.framesForFPS + (steps.length : Int) ∧
      (renders c steps).lastFPSUpdated = c.lastFPSUpdated ∧
      (renders c steps).currentFPS = c.currentFPS := by
  induction steps generalizing c with
  | nil => simp [renders]
  | cons s rest ih =>
    have hs := h s (List.mem_cons_self s rest)
    have hr := render_within_window c s.clk s.n s.updateAndDraw (hs.2 _) hs.1
    have hf := updateCount_fps_fields c s.clk s.n
    have h1 : (render c s.clk s.n s.updateAndDraw).ctx.lastFPSUpdated = c.lastFPSUpdated := by
      rw [hr]
      exact hf.2.1
    have h2 : (render c s.clk s.n s.updateAndDraw).ctx.framesForFPS = c.framesForFPS + 1 := by
      rw [hr]
    have h3 : (render c s.clk s.n s.updateAndDraw).ctx.currentFPS = c.currentFPS := by
      rw [hr]
      exact hf.2.2.1
    have ih2 := ih (render c s.clk s.n s.updateAndDraw).ctx (by
      intro s2 hs2
      rw [h1]
      exact h s2 (List.mem_cons_of_mem s hs2))
    rw [renders_cons_ok c s rest hs.2, List.length_cons]
    rw [ih2.1, ih2.2.1, ih2.2.2, h1, h2, h3]
    refine ⟨?_, rfl, rfl⟩
    push_cast
    ring

end Loop

/-! ## FPS measurement and the run lifecycle (claims C8 to C10) -/

namespace Loop

/-- C8 (the claim fails): the stored sample is a rounded `float64`, not the
exact rational.  One successful render step 3 s after a scheduler started at
time 0 stores the `float64` nearest to one third,
`6004799503160661 / 2^54`, which differs from `1 * 1e9 / 3e9`. -/
theorem render_fps_sample_is_rounded :
    (render (started 0) ⟨false, 0⟩ 3000000000 (fun _ => none)).ctx.currentFPS
        = 6004799503160661 / 18014398509481984 ∧
      (render (started 0) ⟨false, 0⟩ 3000000000 (fun _ => none)).ctx.currentFPS
        ≠ (((started 0).framesForFPS + 1 : Int) : ℚ) * 1000000000
            / ((3000000000 - (started 0).lastFPSUpdated : Int) : ℚ) := by
  have hv : (render (started 0) ⟨false, 0⟩ 3000000000 (fun _ => none)).ctx.currentFPS
      = 6004799503160661 / 18014398509481984 := by
    rw [render_sample (started 0) ⟨false, 0⟩ 3000000000 (fun _ => none) rfl (by decide)]
    simp only
    rw [float64_sample _ _ (by decide) (by decide) (by decide) (by decide)]
    have hq : (((started 0).framesForFPS + 1 : Int) : ℚ) * 1000000000
        / ((3000000000 - (started 0).lastFPSUpdated : Int) : ℚ) = 1 / 3 := by
      simp [started, startRunning, runContext.zero]
      norm_num
    rw [hq, round64_third]
  refine ⟨hv, ?_⟩
  rw [hv]
  simp [started, startRunning, runContext.zero]
  norm_num

/-- C8 (amended): a render step at time `n` whose callback succeeds first
increments `framesForFPS`; less than a second after `lastFPSUpdated` nothing
else changes; otherwise `currentFPS` becomes the `float64` value of
`float64(framesForFPS) * float64(1e9) / float64(n - lastFPSUpdated)` with the
incremented counter, `framesForFPS` is reset to 0 and `lastFPSUpdated` is set
to `n`.  When the counter times `1e9` and the gap are at most `2^53`, that
value is the `float64` nearest to the exact quotient, within a relative error
of `2^-53`.  Sixty successful render steps starting from a fresh window, the
sixtieth exactly one second after `lastFPSUpdated`, give `currentFPS = 60`
exactly. -/
theorem render_fps_bookkeeping (c : runContext) (clk : clockReading) (n : Int)
    (g : Int → Option Error) (steps : List RenderStep) (last : RenderStep)
    (hok : g (updateCount c clk n).2 = none) :
    (n - c.lastFPSUpdated < second →
      (render c clk n g).ctx =
          { (updateCount c clk n).1 with framesForFPS := c.framesForFPS + 1 } ∧
        (render c clk n g).ctx.framesForFPS = c.framesForFPS + 1 ∧
        (render c clk n g).ctx.currentFPS = c.currentFPS ∧
        (render c clk n g).ctx.lastFPSUpdated = c.lastFPSUpdated) ∧
    (second ≤ n - c.lastFPSUpdated →
      (render c clk n g).ctx.currentFPS =
          float64Div (float64Mul (float64OfInt (c.framesForFPS + 1)) (float64OfInt second))
            (float64OfInt (n - c.lastFPSUpdated)) ∧
        (render c clk n g).ctx.framesForFPS = 0 ∧
        (render c clk n g).ctx.lastFPSUpdated = n) ∧
    (second ≤ n - c.lastFPSUpdated → 0 ≤ c.framesForFPS + 1 →
      (c.framesForFPS + 1) * second ≤ 2 ^ 53 → n - c.lastFPSUpdated ≤ 2 ^ 53 →
      (render c clk n g).ctx.currentFPS =
          round64 (((c.framesForFPS + 1 : Int) : ℚ) * 1000000000
            / ((n - c.lastFPSUpdated : Int) : ℚ)) ∧
        |(render c clk n g).ctx.currentFPS
            - ((c.framesForFPS + 1 : Int) : ℚ) * 1000000000
              / ((n - c.lastFPSUpdated : Int) : ℚ)|
          ≤ ((c.framesForFPS + 1 : Int) : ℚ) * 1000000000
              / ((n - c.lastFPSUpdated : Int) : ℚ) / 2 ^ 53) ∧
    (c.framesForFPS = 0 → steps.length = 59 →
      (∀ s ∈ steps, s.n - c.lastFPSUpdated < second ∧ ∀ k, s.updateAndDraw k = none) →
      last.n = c.lastFPSUpdated + second → (∀ k, last.updateAndDraw k = none) →
      (renders c (steps ++ [last])).currentFPS = 60) := by
  have hf := updateCount_fps_fields c clk n
  have hs : second = 1000000000 := rfl
  refine ⟨?_, ?_, ?_, ?_⟩
  · intro hw
    rw [render_within_window c clk n g hok hw]
    exact ⟨rfl, rfl, hf.2.2.1, hf.2.1⟩
  · intro hw
    rw [render_sample c clk n g hok hw]
    exact ⟨rfl, rfl, rfl⟩
  · intro hw ha hp hd
    have hd0 : 0 ≤ n - c.lastFPSUpdated := by omega
    have hv : (render c clk n g).ctx.currentFPS =
        round64 (((c.framesForFPS + 1 : Int) : ℚ) * 1000000000
          / ((n - c.lastFPSUpdated : Int) : ℚ)) := by
      rw [render_sample c clk n g hok hw]
      exact float64_sample _ _ ha hp hd0 hd
    refine ⟨hv, ?_⟩
    rw [hv]
    have hq : (0 : ℚ) ≤ ((c.framesForFPS + 1 : Int) : ℚ) * 1000000000
        / ((n - c.lastFPSUpdated : Int) : ℚ) := by
      have h1 : (0 : ℚ) ≤ ((c.framesForFPS + 1 : Int) : ℚ) := by exact_mod_cast ha
      have h2 : (0 : ℚ) ≤ ((n - c.lastFPSUpdated : Int) : ℚ) := by exact_mod_cast hd0
      positivity
    have he := round64_error (((c.framesForFPS + 1 : Int) : ℚ) * 1000000000
        / ((n - c.lastFPSUpdated : Int) : ℚ))
    rw [abs_of_nonneg hq] at he
    exact he
  · intro h0 hlen hsteps hlast hlastok
    have hw := renders_within_window c steps hsteps
    rw [renders_append_ok c steps [last] (fun s hs => (hsteps s hs).2),
      renders_cons_ok _ last [] hlastok]
    simp only [renders]
    rw [render_sample (renders c steps) last.clk last.n last.updateAndDraw (hlastok _)
      (by rw [hw.2.1, hlast]; omega)]
    simp only
    rw [hw.1, hw.2.1, hlast, h0, hlen]
    have h60 : (0 : Int) + ((59 : Nat) : Int) + 1 = 60 := by decide
    have hgap : c.lastFPSUpdated + second - c.lastFPSUpdated = 1000000000 := by
      rw [hs]
      omega
    rw [h60, hgap, float64_sample 60 1000000000 (by decide) (by decide) (by decide)
      (by decide)]
    have h := round64_intCast 60 (by norm_num)
    norm_num at h ⊢
    exact h

/-- Witness for C8: from a scheduler started at time 0, one step after 5 ns,
one step after 3 s, and fifty-nine steps at 16666666 ns followed by one at
1 s. -/
theorem render_fps_bookkeeping_witness :
    (render (started 0) ⟨false, 0⟩ 5 (fun _ => none)).ctx.framesForFPS = 1 ∧
      (render (started 0) ⟨false, 0⟩ 3000000000 (fun _ => none)).ctx.currentFPS
        = round64 (((started 0).framesForFPS + 1 : Int) * 1000000000
            / ((3000000000 - (started 0).lastFPSUpdated : Int) : ℚ)) ∧
      (renders (started 0)
        (List.replicate 59 ⟨⟨false, 0⟩, 16666666, fun _ => none⟩ ++
          [⟨⟨false, 0⟩, 1000000000, fun _ => none⟩])).currentFPS = 60 :=
  ⟨((render_fps_bookkeeping (started 0) ⟨false, 0⟩ 5 (fun _ => none) []
      ⟨⟨false, 0⟩, 0, fun _ => none⟩ rfl).1 (by decide)).2.1,
    ((render_fps_bookkeeping (started 0) ⟨false, 0⟩ 3000000000 (fun _ => none) []
      ⟨⟨false, 0⟩, 0, fun _ => none⟩ rfl).2.2.1 (by decide) (by decide) (by decide)
      (by decide)).1,
    (render_fps_bookkeeping (started 0) ⟨false, 0⟩ 5 (fun _ => none)
      (List.replicate 59 ⟨⟨false, 0⟩, 16666666, fun _ => none⟩)
      ⟨⟨false, 0⟩, 1000000000, fun _ => none⟩ rfl).2.2.2 rfl (List.length_replicate _ _)
      (fun s hs => by
        rw [List.eq_of_mem_replicate hs]
        exact ⟨by decide, fun _ => rfl⟩)
      rfl (fun _ => rfl)⟩

/-- C9 (what the code does): before any `Run`, when `currentRunContext` is
nil, `CurrentFPS` panics with a nil pointer dereference instead of returning
0.  Once a scheduler exists it returns 0 when the scheduler is not running,
in particular after the first `Run` has returned, and the stored sample while
it is running. -/
theorem CurrentFPS_before_first_Run :
    CurrentFPS Process.initial = Except.error Panic.nilPointerDereference ∧
    (∀ p : Process, p.currentRunContext = none →
      CurrentFPS p = Except.error Panic.nilPointerDereference) ∧
    (∀ (p : Process) (c : runContext), p.currentRunContext = some c → c.running = false →
      CurrentFPS p = Except.ok 0) ∧
    (∀ (p : Process) (c : runContext), p.currentRunContext = some c → c.running = true →
      CurrentFPS p = Except.ok c.currentFPS) ∧
    (∀ (n : Int) (uiRun : runContext → runContext × Option Error),
      CurrentFPS (Run Process.initial n uiRun).proc = Except.ok 0) := by
  refine ⟨rfl, ?_, ?_, ?_, ?_⟩
  · intro p hp
    simp [CurrentFPS, hp]
  · intro p c hp hr
    simp [CurrentFPS, hp, getCurrentFPS, hr]
  · intro p c hp hr
    simp [CurrentFPS, hp, getCurrentFPS, hr]
  · intro n uiRun
    simp [CurrentFPS, Run, Process.initial, getCurrentFPS, endRunning]

/-- C10: when a scheduler exists and is running, a further call of `Run`
returns the already-running error without entering the platform loop, and
the package state after the call equals the state before it: the same
scheduler, still running, and the readiness gate as it was. -/
theorem Run_rejected_while_running (p : Process) (c : runContext) (n : Int)
    (uiRun : runContext → runContext × Option Error)
    (hc : p.currentRunContext = some c) (hr : c.running = true) :
    (Run p n uiRun).outcome = Outcome.returned (some alreadyRunning) ∧
      (Run p n uiRun).enteredLoop = false ∧
      (Run p n uiRun).proc = p ∧
      (Run p n uiRun).proc.currentRunContext = some c ∧
      (Run p n uiRun).proc.currentRunContext.map isRunning = some true ∧
      (Run p n uiRun).proc.contextInitChClosed = p.contextInitChClosed := by
  have h : Run p n uiRun =
      { proc := p, enteredLoop := false, outcome := Outcome.returned (some alreadyRunning) } := by
    simp only [Run, hc]
  rw [h]
  simp [hc, isRunning, hr]

/-- Witness for C10: `Run` called again while the scheduler started at time
0 is running. -/
theorem Run_rejected_while_running_witness :
    (started 0).running = true ∧
      (Run ⟨some (started 0), true⟩ 7 (fun c => (c, none))).outcome =
        Outcome.returned (some alreadyRunning) ∧
      (Run ⟨some (started 0), true⟩ 7 (fun c => (c, none))).proc = ⟨some (started 0), true⟩ :=
  ⟨rfl,
    (Run_rejected_while_running ⟨some (started 0), true⟩ (started 0) 7 (fun c => (c, none))
      rfl rfl).1,
    (Run_rejected_while_running ⟨some (started 0), true⟩ (started 0) 7 (fun c => (c, none))
      rfl rfl).2.2.1⟩

end Loop

/-! ## Helper lemmas on `Run` -/

namespace Loop

/-- The result of a rejected call of `Run`. -/
theorem Run_of_some (p : Process) (c : runContext) (n : Int)
    (uiRun : runContext → runContext × Option Error) (hc : p.currentRunContext = some c) :
    Run p n uiRun =
      { proc := p, enteredLoop := false, outcome := Outcome.returned (some alreadyRunning) } := by
  simp only [Run, hc]

/-- The result of an accepted call of `Run` with the gate unset. -/
theorem Run_of_none_unset (p : Process) (n : Int)
    (uiRun : runContext → runContext × Option Error) (hn : p.currentRunContext = none)
    (hg : p.contextInitChClosed = false) :
    Run p n uiRun =
      { proc := { currentRunContext := some (endRunning (uiRun (started n)).1),
                  contextInitChClosed := true },
        enteredLoop := true,
        outcome := Outcome.returned
          (match (uiRun (started n)).2 with
            | some Error.regularTermination => none
            | some err => some err
            | none => none) } := by
  simp [Run, hn, hg, started]

/-- The result of a call of `Run` that finds no scheduler and the gate set. -/
theorem Run_of_none_set (p : Process) (n : Int)
    (uiRun : runContext → runContext × Option Error) (hn : p.currentRunContext = none)
    (hg : p.contextInitChClosed = true) :
    Run p n uiRun =
      { proc := { currentRunContext := some (endRunning (started n)),
                  contextInitChClosed := true },
        enteredLoop := false,
        outcome := Outcome.panicked Panic.closeOfClosedChannel } := by
  simp [Run, hn, hg, started]

/-- Once a scheduler exists, every later call of `Run` is rejected and the
package state stays as it is. -/
theorem runs_of_some (p : Process) (c : runContext) (calls : List RunCall)
    (hc : p.currentRunContext = some c) :
    (runs p calls).1 = p ∧
      ∀ r ∈ (runs p calls).2,
        r = { proc := p, enteredLoop := false,
              outcome := Outcome.returned (some alreadyRunning) } := by
  induction calls with
  | nil => simp [runs]
  | cons k rest ih =>
    simp only [runs, Run_of_some p c k.n k.uiRun hc, List.mem_cons]
    refine ⟨ih.1, ?_⟩
    intro r hr
    rcases hr with h | h
    · exact h
    · exact ih.2 r h

end Loop

/-! ## The run lifecycle and the render step (claims C11 to C14) -/

namespace Loop

/-- C11 (the claim fails): after a first `Run` has returned, the scheduler
exists and is not running, and a second `Run` is still rejected with the
already-running error, without entering the platform loop. -/
theorem Run_after_return_is_rejected :
    (Run Process.initial 0 (fun c => (c, none))).outcome = Outcome.returned none ∧
      (Run Process.initial 0 (fun c => (c, none))).proc.currentRunContext.map isRunning
        = some false ∧
      (Run (Run Process.initial 0 (fun c => (c, none))).proc 1 (fun c => (c, none))).outcome
        = Outcome.returned (some alreadyRunning) ∧
      (Run (Run Process.initial 0 (fun c => (c, none))).proc 1
        (fun c => (c, none))).enteredLoop = false := by
  refine ⟨rfl, rfl, rfl, rfl⟩

/-- C11 (amended): `Run` fails with the already-running error, without
entering the platform loop, if and only if a scheduler exists at the time of
the call, whether or not it is still running; the state is then left as it
was.  When no scheduler exists and the gate is unset, `Run` is accepted: it
hands a fresh scheduler, marked running, to the platform loop. -/
theorem Run_rejects_iff_scheduler_exists (p : Process) (n : Int)
    (uiRun : runContext → runContext × Option Error) :
    (((Run p n uiRun).outcome = Outcome.returned (some alreadyRunning) ∧
        (Run p n uiRun).enteredLoop = false) ↔ p.currentRunContext ≠ none) ∧
    (p.currentRunContext ≠ none → (Run p n uiRun).proc = p) ∧
    (p.currentRunContext = none → p.contextInitChClosed = false →
      (Run p n uiRun).enteredLoop = true ∧
        (started n).running = true ∧
        (started n).frames = 0 ∧
        (Run p n uiRun).proc.currentRunContext = some (endRunning (uiRun (started n)).1)) := by
  cases hp : p.currentRunContext with
  | some c =>
    rw [Run_of_some p c n uiRun hp]
    simp
  | none =>
    refine ⟨?_, ?_, ?_⟩
    · cases hg : p.contextInitChClosed with
      | true =>
        rw [Run_of_none_set p n uiRun hp hg]
        simp
      | false =>
        rw [Run_of_none_unset p n uiRun hp hg]
        simp
    · intro h
      exact absurd rfl h
    · intro _ hg
      rw [Run_of_none_unset p n uiRun hp hg]
      exact ⟨rfl, rfl, rfl, rfl⟩

/-- Witness for C11: the second call after a first `Run` has returned is
rejected and changes nothing; the first call is accepted. -/
theorem Run_rejects_iff_scheduler_exists_witness :
    (Run ⟨some (endRunning (started 0)), true⟩ 1 (fun c => (c, none))).proc
        = ⟨some (endRunning (started 0)), true⟩ ∧
      (Run Process.initial 0 (fun c => (c, none))).enteredLoop = true :=
  ⟨(Run_rejects_iff_scheduler_exists ⟨some (endRunning (started 0)), true⟩ 1
      (fun c => (c, none))).2.1 (by simp),
    ((Run_rejects_iff_scheduler_exists Process.initial 0 (fun c => (c, none))).2.2
      rfl rfl).1⟩

/-- C12: for a call of `Run` that gets past the already-running check, the
scheduler is marked not running afterwards; with the gate unset the call
enters the platform loop and returns nil when the loop returns nil or a
regular termination, and the loop's error itself otherwise. -/
theorem Run_outcome_of_loop (p : Process) (n : Int)
    (uiRun : runContext → runContext × Option Error) (hn : p.currentRunContext = none) :
    (Run p n uiRun).proc.currentRunContext.map isRunning = some false ∧
    (p.contextInitChClosed = false →
      (Run p n uiRun).enteredLoop = true ∧
      ((uiRun (started n)).2 = none → (Run p n uiRun).outcome = Outcome.returned none) ∧
      ((uiRun (started n)).2 = some Error.regularTermination →
        (Run p n uiRun).outcome = Outcome.returned none) ∧
      (∀ e : Error, (uiRun (started n)).2 = some e → e ≠ Error.regularTermination →
        (Run p n uiRun).outcome = Outcome.returned (some e))) := by
  refine ⟨?_, ?_⟩
  · cases hg : p.contextInitChClosed with
    | true =>
      rw [Run_of_none_set p n uiRun hn hg]
      rfl
    | false =>
      rw [Run_of_none_unset p n uiRun hn hg]
      rfl
  · intro hg
    rw [Run_of_none_unset p n uiRun hn hg]
    refine ⟨rfl, ?_, ?_, ?_⟩
    · intro h
      simp only [h]
    · intro h
      simp only [h]
    · intro e h he
      cases e with
      | regularTermination => exact absurd rfl he
      | errorString msg => simp only [h]

/-- Witness for C12: from the initial state, a loop that ends with a regular
termination gives nil, and one that fails gives its error. -/
theorem Run_outcome_of_loop_witness :
    (Run Process.initial 0 (fun c => (c, some Error.regularTermination))).outcome
        = Outcome.returned none ∧
      (Run Process.initial 0 (fun c => (c, some (Error.errorString "lost context")))).outcome
        = Outcome.returned (some (Error.errorString "lost context")) ∧
      (Run Process.initial 0
        (fun c => (c, some (Error.errorString "lost context")))).proc.currentRunContext.map
          isRunning = some false :=
  ⟨((Run_outcome_of_loop Process.initial 0 (fun c => (c, some Error.regularTermination))
      rfl).2 rfl).2.2.1 rfl,
    ((Run_outcome_of_loop Process.initial 0
      (fun c => (c, some (Error.errorString "lost context"))) rfl).2 rfl).2.2.2
      (Error.errorString "lost context") rfl (by simp),
    (Run_outcome_of_loop Process.initial 0
      (fun c => (c, some (Error.errorString "lost context"))) rfl).1⟩

/-- C13: a render step calls `UpdateAndDraw` exactly once, with the value
that `updateCount` returns for the state and time of the step, and the error
of the step is the error of that call; the same holds for `Update`, which
is the render step. -/
theorem render_calls_updateAndDraw_once (c : runContext) (clk : clockReading) (n : Int)
    (g : Int → Option Error) :
    (render c clk n g).trace.filter Event.isUpdateAndDraw
        = [Event.updateAndDraw (updateCount c clk n).2] ∧
      (render c clk n g).err = g (updateCount c clk n).2 ∧
      (∀ e : Error, g (updateCount c clk n).2 = some e → (render c clk n g).err = some e) ∧
      Update c clk n g = render c clk n g := by
  have ht : (render c clk n g).trace =
      (match c.ping with
        | some id => [Event.ping id]
        | none => []) ++ [Event.updateAndDraw (updateCount c clk n).2] := by
    unfold render
    simp only
    split
    · rfl
    · split <;> rfl
  refine ⟨?_, render_err c clk n g, ?_, rfl⟩
  · rw [ht]
    cases c.ping <;> simp [Event.isUpdateAndDraw]
  · intro e he
    rw [render_err, he]

/-- C14: in a sequence of calls of `Run` from the initial state no call
panics on the gate, at most one call gets as far as opening it, the first
call does open it, and it stays open; in general `Run` never resets an open
gate. -/
theorem gate_opened_at_most_once (first : RunCall) (calls : List RunCall) (p : Process)
    (k : RunCall) :
    (∀ r ∈ (runs Process.initial calls).2,
      r.outcome ≠ Outcome.panicked Panic.closeOfClosedChannel) ∧
    ((runs Process.initial calls).2.filter (fun r => r.enteredLoop)).length ≤ 1 ∧
    ((Run Process.initial first.n first.uiRun).enteredLoop = true ∧
      (Run Process.initial first.n first.uiRun).proc.contextInitChClosed = true) ∧
    (∀ r ∈ (runs (Run Process.initial first.n first.uiRun).proc calls).2,
      r.enteredLoop = false ∧ r.outcome = Outcome.returned (some alreadyRunning) ∧
        r.proc.contextInitChClosed = true) ∧
    (runs Process.initial (first :: calls)).1.contextInitChClosed = true ∧
    (p.contextInitChClosed = true → (Run p k.n k.uiRun).proc.contextInitChClosed = true) := by
  have hfirst : ∀ f : RunCall, Run Process.initial f.n f.uiRun =
      { proc := { currentRunContext := some (endRunning (f.uiRun (started f.n)).1),
                  contextInitChClosed := true },
        enteredLoop := true,
        outcome := Outcome.returned
          (match (f.uiRun (started f.n)).2 with
            | some Error.regularTermination => none
            | some err => some err
            | none => none) } :=
    fun f => Run_of_none_unset Process.initial f.n f.uiRun rfl rfl
  have hrest : ∀ (f : RunCall) (l : List RunCall),
      (runs (Run Process.initial f.n f.uiRun).proc l).1 = (Run Process.initial f.n f.uiRun).proc ∧
      ∀ r ∈ (runs (Run Process.initial f.n f.uiRun).proc l).2,
        r = { proc := (Run Process.initial f.n f.uiRun).proc, enteredLoop := false,
              outcome := Outcome.returned (some alreadyRunning) } := by
    intro f l
    exact runs_of_some _ (endRunning (f.uiRun (started f.n)).1) l (by rw [hfirst f])
  refine ⟨?_, ?_, ?_, ?_, ?_, ?_⟩
  · cases calls with
    | nil => simp [runs]
    | cons f l =>
      intro r hr
      simp only [runs, List.mem_cons] at hr
      rcases hr with h | h
      · rw [h, hfirst f]
        simp
      · rw [(hrest f l).2 r h]
        simp
  · cases calls with
    | nil => simp [runs]
    | cons f l =>
      have hnone : (runs (Run Process.initial f.n f.uiRun).proc l).2.filter
          (fun r => r.enteredLoop) = [] := by
        rw [List.filter_eq_nil_iff]
        intro r hr
        rw [(hrest f l).2 r hr]
        simp
      have hf : (Run Process.initial f.n f.uiRun).enteredLoop = true := by rw [hfirst f]
      simp only [runs, List.filter_cons, hf, if_true, hnone, List.length_singleton, le_refl]
  · rw [hfirst first]
    exact ⟨rfl, rfl⟩
  · intro r hr
    rw [(hrest first calls).2 r hr, hfirst first]
    exact ⟨rfl, rfl, rfl⟩
  · simp only [runs]
    rw [(hrest first calls).1, hfirst first]
  · intro hg
    cases hp : p.currentRunContext with
    | some c =>
      rw [Run_of_some p c k.n k.uiRun hp]
      exact hg
    | none =>
      rw [Run_of_none_set p k.n k.uiRun hp hg]

/-- Witness for C14: three calls of `Run` in a row from the initial state. -/
theorem gate_opened_at_most_once_witness :
    ((runs Process.initial
        [⟨0, fun c => (c, none)⟩, ⟨1, fun c => (c, none)⟩, ⟨2, fun c => (c, none)⟩]).2.filter
      (fun r => r.enteredLoop)).length ≤ 1 ∧
      (runs Process.initial
        [⟨0, fun c => (c, none)⟩, ⟨1, fun c => (c, none)⟩,
          ⟨2, fun c => (c, none)⟩]).1.contextInitChClosed = true :=
  ⟨(gate_opened_at_most_once ⟨0, fun c => (c, none)⟩
      [⟨0, fun c => (c, none)⟩, ⟨1, fun c => (c, none)⟩, ⟨2, fun c => (c, none)⟩]
      Process.initial ⟨0, fun c => (c, none)⟩).2.1,
    (gate_opened_at_most_once ⟨0, fun c => (c, none)⟩
      [⟨1, fun c => (c, none)⟩, ⟨2, fun c => (c, none)⟩]
      Process.initial ⟨0, fun c => (c, none)⟩).2.2.2.2.1⟩

end Loop

/-! ## The looping stream (claims C15 to C17) -/

namespace Audio

/-- From the start, `Loop.Seek` asks the underlying stream for the truncated
remainder of the offset. -/
theorem Seek_from_start {S : Type} (l : Loop S) (s : S) (offset : Int) (hsize : l.size ≠ 0) :
    Loop.Seek l s offset 0 =
      match (l.stream.Seek s (Int.tmod offset l.size) 0).2.2 with
      | some err =>
        Result.returned (l.stream.Seek s (Int.tmod offset l.size) 0).1
          [Call.seek (Int.tmod offset l.size) 0] 0 (some err)
      | none =>
        Result.returned (l.stream.Seek s (Int.tmod offset l.size) 0).1
          [Call.seek (Int.tmod offset l.size) 0]
          (l.stream.Seek s (Int.tmod offset l.size) 0).2.1 none := by
  simp only [Loop.Seek, Loop.seekSwitch, if_true, if_neg hsize, List.nil_append]

/-- The truncated remainder of the opposite is the opposite remainder. -/
theorem neg_tmod_eq (a b : Int) : Int.tmod (-a) b = -Int.tmod a b := by
  rw [Int.tmod_def, Int.tmod_def, Int.neg_tdiv]
  ring

/-- The truncated remainder by a positive `size`: congruent to the target,
strictly between `-size` and `size`, and with the sign of the target. -/
theorem tmod_normal (target size : Int) (hsize : 0 < size) :
    size ∣ target - Int.tmod target size ∧
      -size < Int.tmod target size ∧ Int.tmod target size < size ∧
      (0 ≤ target → 0 ≤ Int.tmod target size) ∧
      (target < 0 → Int.tmod target size ≤ 0) := by
  have hlt := Int.tmod_lt_of_pos target hsize
  have hnn : 0 ≤ target → 0 ≤ Int.tmod target size := fun h => Int.tmod_nonneg size h
  have hneg : Int.tmod (-target) size = -Int.tmod target size := neg_tmod_eq target size
  have hlt2 := Int.tmod_lt_of_pos (-target) hsize
  have hnp : target < 0 → Int.tmod target size ≤ 0 := by
    intro h
    have := Int.tmod_nonneg size (show (0 : Int) ≤ -target by omega)
    omega
  refine ⟨?_, by omega, hlt, hnn, hnp⟩
  rw [Int.tmod_def]
  exact ⟨Int.tdiv target size, by ring⟩

/-- C15: for `size > 0` and `0 ≤ k < size`, `Seek(size + k, 0)` on the loop
seeks the underlying stream to position `k` from the start and returns
`(k, nil)`, when that seek of the underlying stream succeeds and returns
`k`. -/
theorem Loop_Seek_wraps {S : Type} (l : Loop S) (s s2 : S) (k : Int)
    (hsize : 0 < l.size) (hk0 : 0 ≤ k) (hk : k < l.size)
    (hseek : l.stream.Seek s k 0 = (s2, k, none)) :
    Loop.Seek l s (l.size + k) 0 = Result.returned s2 [Call.seek k 0] k none := by
  have hm : Int.tmod (l.size + k) l.size = k := by
    rw [Int.tmod_eq_emod (by omega) (by omega), Int.add_emod_self_left,
      Int.emod_eq_of_lt hk0 hk]
  rw [Seek_from_start l s _ (by omega), hm, hseek]

/-- Witness for C15: a loop of size 10 over a buffer of 10 bytes, asked for
offset 13. -/
theorem Loop_Seek_wraps_witness :
    Loop.Seek (NewLoop bufferStream 10) ⟨10, 7⟩ (10 + 3) 0
      = Result.returned ⟨10, 3⟩ [Call.seek 3 0] 3 none :=
  Loop_Seek_wraps (NewLoop bufferStream 10) ⟨10, 7⟩ ⟨10, 3⟩ 3 (by decide) (by decide)
    (by decide) rfl

/-- C16 (the claim fails): with size 10, `Seek(-1, 0)` asks the underlying
stream for position -1, and `Seek(-4, 1)` at position 3 does too; -1 is not
in the range from 0 to 9. -/
theorem Loop_Seek_negative_target :
    Result.calls (Loop.Seek (NewLoop bufferStream 10) ⟨10, 3⟩ (-1) 0) = [Call.seek (-1) 0] ∧
      Result.calls (Loop.Seek (NewLoop bufferStream 10) ⟨10, 3⟩ (-4) 1)
        = [Call.seek 0 1, Call.seek (-1) 0] ∧
      ¬ (0 ≤ (-1 : Int)) := by
  refine ⟨by decide, by decide, by decide⟩

/-- C16 (amended): for `size > 0` and whence 0 or 1, the position that
`Loop.Seek` requests from the underlying stream is the truncated remainder of
the target by `size`, where the target is the offset for whence 0 and the
`int64` sum of the current position and the offset, which wraps around on
overflow, for whence 1.  The requested position is congruent to the target
modulo `size` and lies strictly between `-size` and `size`; it lies between 0
and `size` when the target is not negative, and is at most 0 otherwise. -/
theorem Loop_Seek_normalized {S : Type} (l : Loop S) (s : S) (offset : Int)
    (hsize : 0 < l.size) :
    Result.calls (Loop.Seek l s offset 0) = [Call.seek (Int.tmod offset l.size) 0] ∧
    (∀ (s1 : S) (current : Int), l.stream.Seek s 0 1 = (s1, current, none) →
      Result.calls (Loop.Seek l s offset 1)
        = [Call.seek 0 1, Call.seek (Int.tmod (wrapInt64 (current + offset)) l.size) 0]) ∧
    (∀ x : Int,
      -9223372036854775808 ≤ wrapInt64 x ∧ wrapInt64 x < 9223372036854775808 ∧
        (18446744073709551616 : Int) ∣ x - wrapInt64 x ∧
        (-9223372036854775808 ≤ x → x < 9223372036854775808 → wrapInt64 x = x)) ∧
    (∀ target : Int,
      l.size ∣ target - Int.tmod target l.size ∧
        -l.size < Int.tmod target l.size ∧ Int.tmod target l.size < l.size ∧
        (0 ≤ target → 0 ≤ Int.tmod target l.size) ∧
        (target < 0 → Int.tmod target l.size ≤ 0)) := by
  have hne : l.size ≠ 0 := by omega
  refine ⟨?_, ?_, ?_, fun target => tmod_normal target l.size hsize⟩
  · rw [Seek_from_start l s offset hne]
    split <;> rfl
  · intro s1 current h
    simp only [Loop.Seek, Loop.seekSwitch, h, if_neg hne]
    simp only [show ¬ ((1 : Int) = 0) by decide, if_false, if_true]
    split <;> rfl
  · intro x
    unfold wrapInt64
    refine ⟨by omega, by omega, ?_, fun h1 h2 => by omega⟩
    exact ⟨(x + 9223372036854775808) / 18446744073709551616, by omega⟩

/-- Witness for C16: a loop of size 10; at position 3, offset 25 from the
start asks for 5 and offset 9 from the current position asks for 2; at
position 5, the largest `int64` offset from the current position wraps
around and asks for -4. -/
theorem Loop_Seek_normalized_witness :
    Result.calls (Loop.Seek (NewLoop bufferStream 10) ⟨10, 3⟩ 25 0)
        = [Call.seek (Int.tmod 25 10) 0] ∧
      Result.calls (Loop.Seek (NewLoop bufferStream 10) ⟨10, 3⟩ 9 1)
        = [Call.seek 0 1, Call.seek (Int.tmod (wrapInt64 (3 + 9)) 10) 0] ∧
      Int.tmod (wrapInt64 (3 + 9)) 10 = 2 ∧
      Result.calls (Loop.Seek (NewLoop bufferStream 10) ⟨10, 5⟩ 9223372036854775807 1)
        = [Call.seek 0 1, Call.seek (Int.tmod (wrapInt64 (5 + 9223372036854775807)) 10) 0] ∧
      Int.tmod (wrapInt64 (5 + 9223372036854775807)) 10 = -4 :=
  ⟨(Loop_Seek_normalized (NewLoop bufferStream 10) ⟨10, 3⟩ 25 (by decide)).1,
    (Loop_Seek_normalized (NewLoop bufferStream 10) ⟨10, 3⟩ 9 (by decide)).2.1 ⟨10, 3⟩ 3 rfl,
    by decide,
    (Loop_Seek_normalized (NewLoop bufferStream 10) ⟨10, 5⟩ 9223372036854775807
      (by decide)).2.1 ⟨10, 5⟩ 5 rfl,
    by decide⟩

/-- C17: for `size > 0`, when the underlying `Read` returns `(n, io.EOF)`
and the seek of the underlying stream to 0 succeeds, `Loop.Read` returns
`(n, nil)` after exactly that read and that seek; when the underlying `Read`
returns another error or nil, `Loop.Read` returns the same count and error
and makes no other call. -/
theorem Loop_Read_wraps {S : Type} (l : Loop S) (s s1 : S) (len : Nat) (n : Int)
    (err : Option IOError) (hsize : 0 < l.size) (hread : l.stream.Read s len = (s1, n, err)) :
    (err = some IOError.EOF →
      ∀ (s2 : S) (pos : Int), l.stream.Seek s1 0 0 = (s2, pos, none) →
        Loop.Read l s len = Result.returned s2 [Call.read len, Call.seek 0 0] n none) ∧
    (err ≠ some IOError.EOF →
      Loop.Read l s len = Result.returned s1 [Call.read len] n err) := by
  have hne : l.size ≠ 0 := by omega
  refine ⟨?_, ?_⟩
  · intro he s2 pos hseek
    subst he
    have hs : Loop.Seek l s1 0 0 = Result.returned s2 [Call.seek 0 0] pos none := by
      rw [Seek_from_start l s1 0 hne, Int.zero_tmod, hseek]
    simp only [Loop.Read, hread, if_true, hs]
  · intro he
    simp only [Loop.Read, hread, if_neg he]

/-- Witness for C17: a loop of size 10 over a buffer of 10 bytes; a read of
4 bytes at position 8 reaches the end, one at position 3 does not. -/
theorem Loop_Read_wraps_witness :
    Loop.Read (NewLoop bufferStream 10) ⟨10, 8⟩ 4
        = Result.returned ⟨10, 0⟩ [Call.read 4, Call.seek 0 0] 2 none ∧
      Loop.Read (NewLoop bufferStream 10) ⟨10, 3⟩ 4
        = Result.returned ⟨10, 7⟩ [Call.read 4] 4 none :=
  ⟨(Loop_Read_wraps (NewLoop bufferStream 10) ⟨10, 8⟩ ⟨10, 10⟩ 4 2 (some IOError.EOF)
      (by decide) rfl).1 rfl ⟨10, 0⟩ 0 rfl,
    (Loop_Read_wraps (NewLoop bufferStream 10) ⟨10, 3⟩ ⟨10, 7⟩ 4 4 none
      (by decide) rfl).2 (by simp)⟩

end Audio

/-! ## The second stabilization rule and the residual lag (claims C19, C20) -/

namespace Loop

/-- The two rules of `stabilize`, one after the other. -/
theorem stabilize_rules (count t : Int) :
    stabilize count t =
      if secondRuleFires (stabilizeFirst count t) t = true then 1
      else stabilizeFirst count t := by
  simp only [stabilize, stabilizeFirst, secondRuleFires, decide_eq_true_eq]

/-- The count of the unsynchronized branch is never 2 below the threshold of
the second rule once the first rule has run. -/
theorem unsync_second_rule (c : runContext) (clk : clockReading) (now : Int)
    (hu : clk.valid = false ∨ c.lastClockFrame = clk.frame)
    (ht : 0 ≤ now - c.lastUpdated) :
    secondRuleFires
      (stabilizeFirst (updateCountBranch c clk now (now - c.lastUpdated)).2.1
        (now - c.lastUpdated)) (now - c.lastUpdated) = false := by
  simp only [secondRuleFires, stabilizeFirst, halfInterval_eq, threeHalves_eq,
    decide_eq_false_iff_not]
  by_cases hg : 83333333 < now - c.lastUpdated
  · rw [branch_stale c clk now _ hu hg]
    simp only
    split_ifs <;> omega
  · rw [branch_fresh c clk now _ hu ht (by omega)]
    simp only
    split_ifs <;> omega

/-- C19: in the unsynchronized branch the second stabilization rule never
fires, so the stabilized count is the one the first rule leaves: an elapsed
time whose tick count is 2 is at least 33333334 ns, above the threshold of
24999999 ns.  In the synchronized branch the rule can fire: a clock two
frames ahead one interval after the last update yields 1. -/
theorem second_rule_never_fires_unsync (c : runContext) (clk : clockReading) (now : Int)
    (hu : clk.valid = false ∨ clk.frame = c.lastClockFrame)
    (ht : 0 ≤ now - c.lastUpdated) :
    secondRuleFires
        (stabilizeFirst (updateCountBranch c clk now (now - c.lastUpdated)).2.1
          (now - c.lastUpdated)) (now - c.lastUpdated) = false ∧
      stabilize (updateCountBranch c clk now (now - c.lastUpdated)).2.1 (now - c.lastUpdated)
        = stabilizeFirst (updateCountBranch c clk now (now - c.lastUpdated)).2.1
            (now - c.lastUpdated) ∧
      (updateCount c clk now).2 =
        clamp (stabilizeFirst (updateCountBranch c clk now (now - c.lastUpdated)).2.1
          (now - c.lastUpdated)) ∧
      (∀ e : Int, 0 ≤ e → Int.tdiv (e * FPS) second = 2 →
        33333334 ≤ e ∧ ¬ (Int.tdiv (Int.tdiv second FPS * 3) 2 > e)) ∧
      Int.tdiv (Int.tdiv second FPS * 3) 2 = 24999999 ∧
      ((updateCountBranch (started 0) ⟨true, 2⟩ 16666666 16666666).2.1 = 2 ∧
        secondRuleFires (stabilizeFirst 2 16666666) 16666666 = true ∧
        (updateCount (started 0) ⟨true, 2⟩ 16666666).2 = 1) := by
  have hu2 : clk.valid = false ∨ c.lastClockFrame = clk.frame := hu.imp id Eq.symm
  have h1 := unsync_second_rule c clk now hu2 ht
  have h2 : stabilize (updateCountBranch c clk now (now - c.lastUpdated)).2.1
      (now - c.lastUpdated)
        = stabilizeFirst (updateCountBranch c clk now (now - c.lastUpdated)).2.1
            (now - c.lastUpdated) := by
    rw [stabilize_rules, h1]
    simp
  refine ⟨h1, h2, ?_, ?_, threeHalves_eq, by decide, by decide, by decide⟩
  · have hneg : ¬ (now - c.lastUpdated < 0) := by omega
    simp only [updateCount, if_neg hneg, h2]
  · intro e he h
    rw [ticks_eq e he] at h
    rw [threeHalves_eq]
    omega

/-- Witness for C19: a scheduler started at time 0 with the clock invalid,
called 40 ms later: two ticks, and the second rule does not fire. -/
theorem second_rule_never_fires_unsync_witness :
    (updateCountBranch (started 0) ⟨false, 0⟩ 40000000
        (40000000 - (started 0).lastUpdated)).2.1 = 2 ∧
      secondRuleFires
        (stabilizeFirst (updateCountBranch (started 0) ⟨false, 0⟩ 40000000
          (40000000 - (started 0).lastUpdated)).2.1 (40000000 - (started 0).lastUpdated))
        (40000000 - (started 0).lastUpdated) = false :=
  ⟨by decide,
    (second_rule_never_fires_unsync (started 0) ⟨false, 0⟩ 40000000 (Or.inl rfl)
      (by decide)).1⟩

/-- C20: when `now` is not before `lastUpdated`, the residual
`now - lastUpdated` after `updateCount` lies between -16666666 and 33333333
inclusive, and it is 0 in the synchronized branch. -/
theorem updateCount_residual_bounds (c : runContext) (clk : clockReading) (now : Int)
    (ht : 0 ≤ now - c.lastUpdated) :
    -16666666 ≤ now - (updateCount c clk now).1.lastUpdated ∧
      now - (updateCount c clk now).1.lastUpdated ≤ 33333333 ∧
      (clk.valid = true → c.lastClockFrame ≠ clk.frame →
        now - (updateCount c clk now).1.lastUpdated = 0) ∧
      Int.tdiv second FPS = 16666666 := by
  have hi : Int.tdiv second FPS = 16666666 := by decide
  by_cases h : clk.valid = true ∧ c.lastClockFrame ≠ clk.frame
  · rw [updateCount_sync c clk now (by omega) h.1 h.2]
    simp only
    refine ⟨by omega, by omega, fun _ _ => by omega, hi⟩
  · have hu := (unsync_iff c clk).1 h
    have hno : clk.valid = true → c.lastClockFrame ≠ clk.frame →
        now - (updateCount c clk now).1.lastUpdated = 0 :=
      fun hv hf => absurd ⟨hv, hf⟩ h
    by_cases hg : 83333333 < now - c.lastUpdated
    · refine ⟨?_, ?_, hno, hi⟩ <;>
        rw [updateCount_stale c clk now hu hg] <;> simp only <;> omega
    · refine ⟨?_, ?_, hno, hi⟩ <;>
        rw [updateCount_fresh c clk now hu (by omega) (by omega),
          fresh_count _ ht (by omega)] <;> simp only <;> split_ifs <;> omega

/-- Witness for C20: a scheduler started at time 0 with the clock invalid;
after 100 ms the residual is -16666666, after 83333333 ns it is 33333333. -/
theorem updateCount_residual_bounds_witness :
    100000000 - (updateCount (started 0) ⟨false, 0⟩ 100000000).1.lastUpdated = -16666666 ∧
      83333333 - (updateCount (started 0) ⟨false, 0⟩ 83333333).1.lastUpdated = 33333333 ∧
      -16666666 ≤ 100000000 - (updateCount (started 0) ⟨false, 0⟩ 100000000).1.lastUpdated ∧
      83333333 - (updateCount (started 0) ⟨false, 0⟩ 83333333).1.lastUpdated ≤ 33333333 :=
  ⟨by decide, by decide,
    (updateCount_residual_bounds (started 0) ⟨false, 0⟩ 100000000 (by decide)).1,
    (updateCount_residual_bounds (started 0) ⟨false, 0⟩ 83333333 (by decide)).2.1⟩

end Loop
